import Mathlib

/-! # ThinkSync direct messaging: realtime addressing and the message controller

A shallow embedding of `thinkSyncBE/utils/socketRooms.js`, of
`thinkSyncBE/controllers/message.controller.js` and of the reconciliation logic
of the client components `FloatingButton.jsx` and `ChatModel.jsx`, followed by
the properties established about them.

Conventions of the embedding

* A JavaScript string is the list of its UTF-16 code units (`Str`); the
  relational comparison of two strings is the lexicographic comparison of
  those code units, which is what `Array.prototype.sort` uses by default.
* The relational store (`prisma`) is a record of three tables kept as lists in
  insertion order.  A query with `orderBy` is a stable sort of the matching
  rows, so rows with equal keys come back in insertion order.
* A request handler is a function from the store to a response, the store
  after the request, and the sequence of socket events it published.
* Tasks started together under `Promise.all` may publish in any order; that
  order is an explicit `Schedule` argument.
* A sort with a comparator is the stable sort by that comparator.  The
  platform's `localeCompare` is an argument of the client functions that sort.
-/

namespace ThinkSync

/-! ## Strings -/

/-- A JavaScript string as the list of its UTF-16 code units. -/
abbrev Str := List Nat

/-- The JavaScript comparison `x < y` on strings: code unit by code unit, a
proper prefix being smaller. -/
def strLt : Str → Str → Bool
  | [], [] => false
  | [], _ :: _ => true
  | _ :: _, [] => false
  | a :: x, b :: y => if a < b then true else if b < a then false else strLt x y

/-- The default `Array.prototype.sort()` on an array of strings: a stable sort
that puts `y` before `x` only when `y < x`. -/
def jsSort (l : List Str) : List Str :=
  l.insertionSort (fun x y => strLt y x = false)

/-- The method `Array.prototype.join(sep)` on an array of strings. -/
def join (sep : Str) (l : List Str) : Str :=
  List.intercalate sep l

/-- The string `"_"`. -/
def underscore : Str := [95]

/-- The string `"user:"`. -/
def userPrefix : Str := [117, 115, 101, 114, 58]

/-! ## `utils/socketRooms.js` -/

/-- The function `getDirectRoomId(userA, userB)`: throws when either id is
empty, otherwise `[userA, userB].sort().join("_")`. -/
def getDirectRoomId (userA userB : Str) : Except String Str :=
  if userA.isEmpty || userB.isEmpty then
    .error "Both user ids are required to build a direct room id"
  else
    .ok (join underscore (jsSort [userA, userB]))

/-- The function `getUserRoomId(userId)`: throws when the id is empty,
otherwise the id behind the prefix `user:`. -/
def getUserRoomId (userId : Str) : Except String Str :=
  if userId.isEmpty then
    .error "userId is required to build a user room id"
  else
    .ok (userPrefix ++ userId)

/-! ## Data model (the tables read and written through `prisma`) -/

/-- The selected columns of a user's detail record. -/
structure UserDetails where
  avatar : Option Str
  coverImage : Option Str
  bio : Option Str
  occupation : Option Str
  location : Option Str
  website : Option Str
  deriving DecidableEq, Repr

/-- A row of the user table, as selected by `userSummarySelect`. -/
structure User where
  id : Str
  username : Str
  displayName : Option Str
  details : Option UserDetails
  deriving DecidableEq, Repr

/-- A row of the follows table. -/
structure Follow where
  followerId : Str
  followingId : Str
  deriving DecidableEq, Repr

/-- A row of the message table; `createdAt` is a timestamp in milliseconds. -/
structure Message where
  id : Str
  senderId : Str
  receiverId : Str
  content : Str
  read : Bool
  createdAt : Nat
  deriving DecidableEq, Repr

/-- The relational store: each table in insertion order. -/
structure Store where
  users : List User
  follows : List Follow
  messages : List Message
  deriving DecidableEq, Repr

/-- The object returned by `formatUserProfile`. -/
structure UserProfile where
  id : Str
  username : Str
  displayName : Str
  details : Option UserDetails
  avatar : Option Str
  profileImage : Option Str
  deriving DecidableEq, Repr

/-- The object returned by `buildConversationSummary`: the formatted profile
spread together with `lastMessage` and `unreadCount`. -/
structure ConversationSummary extends UserProfile where
  lastMessage : Message
  unreadCount : Nat
  deriving DecidableEq, Repr

/-- The four socket events of the controller, by name. -/
inductive EventName
  | chatMessage
  | conversationUpdated
  | unreadTotal
  | messagesRead
  deriving DecidableEq, Repr

/-- The payload of a socket event. -/
inductive EventPayload
  | chatMessage (message : Message) (roomId : Str)
  | conversationUpdated (conversation : ConversationSummary)
  | unreadTotal (count : Nat)
  | messagesRead (readerId otherUserId : Str)
  deriving DecidableEq, Repr

/-- The event name under which a payload is emitted. -/
def EventPayload.name : EventPayload → EventName
  | .chatMessage _ _ => .chatMessage
  | .conversationUpdated _ => .conversationUpdated
  | .unreadTotal _ => .unreadTotal
  | .messagesRead _ _ => .messagesRead

/-- One call `io.to(room).emit(name, payload)`. -/
structure Emit where
  room : Str
  payload : EventPayload
  deriving DecidableEq, Repr

/-- What a request handler does: the HTTP status it answers with, the JSON body
of a successful answer (error answers carry only a message), the store after
the request and the socket events published, in order. -/
structure Outcome (β : Type) where
  status : Nat
  body : Option β
  db : Store
  events : List Emit

/-! ## JavaScript helpers -/

/-- The code units removed by `String.prototype.trim`: white space and line
terminators. -/
def isWhiteSpace (c : Nat) : Bool :=
  c == 9 || c == 10 || c == 11 || c == 12 || c == 13 || c == 32 || c == 160 ||
  c == 5760 || (8192 ≤ c && c ≤ 8202) || c == 8232 || c == 8233 || c == 8239 ||
  c == 8287 || c == 12288 || c == 65279

/-- The method `String.prototype.trim`. -/
def trim (s : Str) : Str :=
  ((s.dropWhile isWhiteSpace).reverse.dropWhile isWhiteSpace).reverse

/-- The expression `a || b` where `a` is a string or null: `a` when it is a
non-empty string, else `b`. -/
def orElse {α : Type} (a : Option Str) (dflt : α) (inj : Str → α) : α :=
  match a with
  | some (c :: s) => inj (c :: s)
  | _ => dflt

/-- The order in which three tasks started together by `Promise.all` get to
publish; every order is possible. -/
inductive Schedule
  | s012 | s021 | s102 | s120 | s201 | s210
  deriving DecidableEq, Repr

/-- The three tasks in the order chosen by the schedule. -/
def Schedule.order {α : Type} : Schedule → α → α → α → List α
  | .s012, a, b, c => [a, b, c]
  | .s021, a, b, c => [a, c, b]
  | .s102, a, b, c => [b, a, c]
  | .s120, a, b, c => [b, c, a]
  | .s201, a, b, c => [c, a, b]
  | .s210, a, b, c => [c, b, a]

/-- The events published by a list of finished tasks; a task that threw
published nothing. -/
def emitted : List (Except String (List Emit)) → List Emit
  | [] => []
  | .ok es :: ts => es ++ emitted ts
  | .error _ :: ts => emitted ts

/-- Whether every task of the list fulfilled. -/
def allFulfilled : List (Except String (List Emit)) → Bool
  | [] => true
  | .ok _ :: ts => allFulfilled ts
  | .error _ :: _ => false

/-- The call `await Promise.all([t0, t1, t2])` on three emitting tasks: all
three run, publishing in scheduled order; the await succeeds iff none threw. -/
def promiseAll (sched : Schedule) (t0 t1 t2 : Except String (List Emit)) :
    List Emit × Bool :=
  (emitted (sched.order t0 t1 t2), allFulfilled (sched.order t0 t1 t2))

/-! ## Queries on the store -/

/-- The `where` clause `OR [{senderId: a, receiverId: b}, {senderId: b, receiverId: a}]`. -/
def betweenUsers (a b : Str) (m : Message) : Bool :=
  (m.senderId == a && m.receiverId == b) || (m.senderId == b && m.receiverId == a)

/-- The `where` clause `{senderId, receiverId, read: false}`. -/
def unreadFrom (senderId receiverId : Str) (m : Message) : Bool :=
  m.senderId == senderId && m.receiverId == receiverId && m.read == false

/-- The `where` clause `{receiverId: userId, read: false}`. -/
def unreadFor (userId : Str) (m : Message) : Bool :=
  m.receiverId == userId && m.read == false

/-- The `where` clause `OR [{senderId: userId}, {receiverId: userId}]`. -/
def involves (userId : Str) (m : Message) : Bool :=
  m.senderId == userId || m.receiverId == userId

/-- Rows in `orderBy: {createdAt: "desc"}`. -/
def orderByCreatedAtDesc (l : List Message) : List Message :=
  l.insertionSort (fun a b => b.createdAt ≤ a.createdAt)

/-- Rows in `orderBy: {createdAt: "asc"}`. -/
def orderByCreatedAtAsc (l : List Message) : List Message :=
  l.insertionSort (fun a b => a.createdAt ≤ b.createdAt)

/-- The query `prisma.message.count({where})`. -/
def countMessages (db : Store) (p : Message → Bool) : Nat :=
  (db.messages.filter p).length

/-- The query `prisma.message.updateMany({where, data: {read: true}})`: the
number of matching rows and the store with those rows marked read. -/
def updateManyRead (db : Store) (p : Message → Bool) : Nat × Store :=
  (countMessages db p,
   { db with messages := db.messages.map fun m => if p m then { m with read := true } else m })

/-- The query `prisma.message.create({data})`; the identifier and the creation
time are assigned by the database and are arguments here. -/
def createMessage (db : Store) (newId : Str) (now : Nat)
    (senderId receiverId content : Str) : Message × Store :=
  let message : Message :=
    { id := newId, senderId := senderId, receiverId := receiverId, content := content,
      read := false, createdAt := now }
  (message, { db with messages := db.messages ++ [message] })

/-! ## `controllers/message.controller.js` -/

/-- The function `ensureConnection`: whether a follows row links the two users
in either direction. -/
def ensureConnection (db : Store) (userId otherUserId : Str) : Bool :=
  (db.follows.find? fun f =>
    (f.followerId == userId && f.followingId == otherUserId) ||
    (f.followerId == otherUserId && f.followingId == userId)).isSome

/-- The function `formatUserProfile`. -/
def formatUserProfile : Option User → Option UserProfile
  | none => none
  | some user =>
    let avatar : Option Str := orElse (user.details.bind (·.avatar)) none some
    some
      { id := user.id
        username := user.username
        displayName := orElse user.displayName user.username id
        details := user.details
        avatar := avatar
        profileImage := avatar }

/-- The function `buildConversationSummary`: the counterpart's profile, the most
recent message between the two users and the number of unread messages from the
counterpart to the viewer; null when the profile or the message is missing. -/
def buildConversationSummary (db : Store) (viewerId otherUserId : Str) :
    Option ConversationSummary :=
  let user := db.users.find? fun u => u.id == otherUserId
  let lastMessage :=
    (orderByCreatedAtDesc (db.messages.filter (betweenUsers viewerId otherUserId))).head?
  let unreadCount := countMessages db (unreadFrom otherUserId viewerId)
  match formatUserProfile user, lastMessage with
  | some profile, some lastMessage =>
    some { toUserProfile := profile, lastMessage := lastMessage, unreadCount := unreadCount }
  | _, _ => none

/-- The function `emitConversationUpdate` as a task: nothing when there is no
summary, else one `chat:conversation-updated` event on the viewer's channel. -/
def emitConversationUpdate (db : Store) (viewerId otherUserId : Str) :
    Except String (List Emit) :=
  match buildConversationSummary db viewerId otherUserId with
  | none => .ok []
  | some conversation =>
    match getUserRoomId viewerId with
    | .error e => .error e
    | .ok room => .ok [⟨room, .conversationUpdated conversation⟩]

/-- The function `emitUnreadTotal` as a task: one `chat:unread-total` event on
the user's channel carrying the number of unread messages addressed to them. -/
def emitUnreadTotal (db : Store) (userId : Str) : Except String (List Emit) :=
  let count := countMessages db (unreadFor userId)
  match getUserRoomId userId with
  | .error e => .error e
  | .ok room => .ok [⟨room, .unreadTotal count⟩]

/-- The handler `sendMessage`.  `senderId` is `req.user.id`; `receiverId` and
`content` are the two fields of `req.body`, each a string or missing. -/
def sendMessage (sched : Schedule) (newId : Str) (now : Nat) (db : Store)
    (senderId : Str) (receiverId content : Option Str) : Outcome Message :=
  let rid : Str := receiverId.getD []
  let trimmed : Str := (content.map trim).getD []
  if rid.isEmpty || trimmed.isEmpty then
    ⟨400, none, db, []⟩
  else if !ensureConnection db senderId rid then
    ⟨403, none, db, []⟩
  else
    let created := createMessage db newId now senderId rid trimmed
    match getDirectRoomId senderId rid with
    | .error _ => ⟨500, none, created.2, []⟩
    | .ok roomId =>
      let first : Emit := ⟨roomId, .chatMessage created.1 roomId⟩
      let fanOut := promiseAll sched
        (emitConversationUpdate created.2 senderId rid)
        (emitConversationUpdate created.2 rid senderId)
        (emitUnreadTotal created.2 rid)
      if fanOut.2 then ⟨201, some created.1, created.2, first :: fanOut.1⟩
      else ⟨500, none, created.2, first :: fanOut.1⟩

/-- The handler `getMessages`.  `userId` is `req.user.id`, `otherUserId` is
`req.params.userId`. -/
def getMessages (sched : Schedule) (db : Store) (userId otherUserId : Str) :
    Outcome (List Message) :=
  if !ensureConnection db userId otherUserId then
    ⟨403, none, db, []⟩
  else
    let messages := orderByCreatedAtAsc (db.messages.filter (betweenUsers userId otherUserId))
    let updateResult := updateManyRead db (unreadFrom otherUserId userId)
    if updateResult.1 > 0 then
      let fanOut := promiseAll sched
        (emitConversationUpdate updateResult.2 userId otherUserId)
        (emitConversationUpdate updateResult.2 otherUserId userId)
        (emitUnreadTotal updateResult.2 userId)
      if fanOut.2 then ⟨200, some messages, updateResult.2, fanOut.1⟩
      else ⟨500, none, updateResult.2, fanOut.1⟩
    else
      ⟨200, some messages, updateResult.2, []⟩

/-- The partner of the viewer in a message row. -/
def partnerOf (userId : Str) (entry : Message) : Str :=
  if entry.senderId == userId then entry.receiverId else entry.senderId

/-- The `forEach` loop of `getRecentChats`: the set `seen` and the array
`uniquePartnerIds` after scanning the rows. -/
def collectPartners (userId : Str) (participants : List Message) :
    List Str × List Str :=
  participants.foldl
    (fun acc entry =>
      let partnerId := partnerOf userId entry
      if acc.1.contains partnerId then acc else (partnerId :: acc.1, acc.2 ++ [partnerId]))
    ([], [])

/-- The comparator sort of `getRecentChats`: stable, most recent last message
first. -/
def sortByLastMessageDesc (l : List ConversationSummary) : List ConversationSummary :=
  l.insertionSort (fun a b => b.lastMessage.createdAt ≤ a.lastMessage.createdAt)

/-- The handler `getRecentChats`. -/
def getRecentChats (db : Store) (userId : Str) : Outcome (List ConversationSummary) :=
  let participants := orderByCreatedAtDesc (db.messages.filter (involves userId))
  let uniquePartnerIds := (collectPartners userId participants).2
  let conversations := uniquePartnerIds.map fun partnerId =>
    buildConversationSummary db userId partnerId
  let filtered := sortByLastMessageDesc (conversations.filterMap id)
  ⟨200, some filtered, db, []⟩

/-- The handler `getUnreadCount`. -/
def getUnreadCount (db : Store) (userId : Str) : Outcome Nat :=
  ⟨200, some (countMessages db (unreadFor userId)), db, []⟩

/-- The handler `markMessagesRead`; the body of a successful answer is
`rowsUpdated`. -/
def markMessagesRead (sched : Schedule) (db : Store) (userId otherUserId : Str) :
    Outcome Nat :=
  if !ensureConnection db userId otherUserId then
    ⟨403, none, db, []⟩
  else
    let result := updateManyRead db (unreadFrom otherUserId userId)
    if result.1 > 0 then
      let fanOut := promiseAll sched
        (emitConversationUpdate result.2 userId otherUserId)
        (emitConversationUpdate result.2 otherUserId userId)
        (emitUnreadTotal result.2 userId)
      if fanOut.2 then
        match getDirectRoomId userId otherUserId with
        | .error _ => ⟨500, none, result.2, fanOut.1⟩
        | .ok roomId =>
          ⟨200, some result.1, result.2, fanOut.1 ++ [⟨roomId, .messagesRead userId otherUserId⟩]⟩
      else ⟨500, none, result.2, fanOut.1⟩
    else
      ⟨200, some result.1, result.2, []⟩

/-! ## Client: `components/Messages/FloatingButton.jsx` -/

/-- The string `"Unknown user"`. -/
def unknownUser : Str := [85, 110, 107, 110, 111, 119, 110, 32, 117, 115, 101, 114]

/-- A conversation object as it reaches the client (from a response or a socket
event), before normalisation: any field but the id may be missing. -/
structure RawConversation where
  id : Str
  username : Option Str
  displayName : Option Str
  profileImage : Option Str
  avatar : Option Str
  details : Option UserDetails
  lastMessage : Option Message
  unreadCount : Option Nat
  deriving DecidableEq, Repr

/-- An entry of the client's conversation list, as built by
`normalizeConversation`. -/
structure ClientConversation where
  id : Str
  username : Option Str
  displayName : Str
  avatar : Option Str
  profileImage : Option Str
  details : Option UserDetails
  lastMessage : Option Message
  unreadCount : Nat
  deriving DecidableEq, Repr

/-- The state of the floating chat button: the conversation list `users` and
the badge `unreadTotal`. -/
structure ChatListState where
  users : List ClientConversation
  unreadTotal : Int
  deriving DecidableEq, Repr

/-- A summary published by the server, as the JSON object the client reads. -/
def ConversationSummary.toRaw (c : ConversationSummary) : RawConversation :=
  { id := c.id
    username := some c.username
    displayName := some c.displayName
    profileImage := c.profileImage
    avatar := c.avatar
    details := c.details
    lastMessage := some c.lastMessage
    unreadCount := some c.unreadCount }

/-- The function `normalizeConversation`. -/
def normalizeConversation : Option RawConversation → Option ClientConversation
  | none => none
  | some raw =>
    let avatar : Option Str :=
      orElse raw.profileImage
        (orElse raw.avatar (orElse (raw.details.bind (·.avatar)) none some) some) some
    some
      { id := raw.id
        username := raw.username
        displayName := orElse raw.displayName (orElse raw.username unknownUser id) id
        avatar := avatar
        profileImage := avatar
        details := raw.details
        lastMessage := raw.lastMessage
        unreadCount := raw.unreadCount.getD 0 }

/-- The comparator of `sortConversations`.  `localeCompare` is the platform's
`String.prototype.localeCompare`. -/
def compareConversations (localeCompare : Str → Str → Int) (a b : ClientConversation) : Int :=
  match a.lastMessage, b.lastMessage with
  | some ma, some mb => (mb.createdAt : Int) - (ma.createdAt : Int)
  | some _, none => -1
  | none, some _ => 1
  | none, none => localeCompare a.displayName b.displayName

/-- The function `sortConversations`: `[...list].sort(comparator)`, a stable
sort that puts `a` before `b` when the comparator is not positive. -/
def sortConversations (localeCompare : Str → Str → Int) (list : List ClientConversation) :
    List ClientConversation :=
  list.insertionSort (fun a b => compareConversations localeCompare a b ≤ 0)

/-- The updater of `handleConversationUpdate` on the list `prev`, for an event
`{conversation}`. -/
def handleConversationUpdate (localeCompare : Str → Str → Int)
    (conversation : Option RawConversation) (prev : List ClientConversation) :
    List ClientConversation :=
  match normalizeConversation conversation with
  | none => prev
  | some normalized =>
    let found := prev.any fun u => u.id == normalized.id
    let updated := prev.map fun u =>
      if u.id == normalized.id then
        { normalized with lastMessage := normalized.lastMessage.orElse fun _ => u.lastMessage }
      else u
    let result := if found then updated else updated ++ [normalized]
    sortConversations localeCompare result

/-- The function `handleMarkRead`: the entries with the given id get
`unreadCount` 0 and a read `lastMessage`; `decrement` is the unread count of
the last such entry; a non-zero decrement is taken off the badge, down to 0. -/
def handleMarkRead (localeCompare : Str → Str → Int) (userId : Str) (st : ChatListState) :
    ChatListState :=
  let decrement : Nat :=
    st.users.foldl (fun d u => if u.id == userId then u.unreadCount else d) 0
  let updated := st.users.map fun u =>
    if u.id == userId then
      { u with unreadCount := 0, lastMessage := u.lastMessage.map fun m => { m with read := true } }
    else u
  { users := sortConversations localeCompare updated
    unreadTotal :=
      if decrement ≠ 0 then max (st.unreadTotal - (decrement : Int)) 0 else st.unreadTotal }

/-! ## Client: `components/Messages/ChatModel.jsx` -/

/-- The handler `handleMessagesRead` on the local message list `prev`, in the
chat of `currentUserId` with `userId`, for an event `{readerId, otherUserId}`
whose fields are strings or missing. -/
def handleMessagesRead (currentUserId userId : Str) (readerId otherUserId : Option Str)
    (prev : List Message) : List Message :=
  let rid : Str := readerId.getD []
  let oid : Str := otherUserId.getD []
  if rid.isEmpty || oid.isEmpty then prev
  else
    let isConversationEvent :=
      (rid == currentUserId && oid == userId) || (rid == userId && oid == currentUserId)
    if !isConversationEvent then prev
    else if rid != currentUserId then
      prev.map fun msg => if msg.senderId == currentUserId then { msg with read := true } else msg
    else prev

/-- The function `markConversationRead`: posts to the mark-read route and calls
`onMarkRead(user.id)` when the answer is a success with `rowsUpdated > 0`.
Returns the server's outcome and the arguments of the `onMarkRead` calls. -/
def markConversationRead (sched : Schedule) (db : Store) (currentUserId userId : Str) :
    Outcome Nat × List Str :=
  let response := markMessagesRead sched db currentUserId userId
  if 200 ≤ response.status && response.status < 300 then
    match response.body with
    | some rowsUpdated => if rowsUpdated > 0 then (response, [userId]) else (response, [])
    | none => (response, [])
  else (response, [])

/-- What opening a conversation did: the store and the events published on the
server side, the local message list, and the `onMarkRead` calls. -/
structure ChatOpened where
  db : Store
  events : List Emit
  messages : List Message
  onMarkReadCalls : List Str

/-- The effect `fetchMessages` run when a conversation is opened: get the
messages, show them with the counterpart's messages marked read, then
`markConversationRead`.  A failed request is caught and ends the effect. -/
def fetchMessages (s₁ s₂ : Schedule) (db : Store) (currentUserId userId : Str)
    (messages : List Message) : ChatOpened :=
  if userId.isEmpty then ⟨db, [], messages, []⟩
  else
    let res := getMessages s₁ db currentUserId userId
    if 200 ≤ res.status && res.status < 300 then
      let shown := (res.body.getD []).map fun msg =>
        if msg.senderId == userId then { msg with read := true } else msg
      let marked := markConversationRead s₂ res.db currentUserId userId
      ⟨marked.1.db, res.events ++ marked.1.events, shown, marked.2⟩
    else ⟨res.db, res.events, messages, []⟩

/-- A `localeCompare` that orders strings by code unit. -/
def codeUnitCompare (x y : Str) : Int :=
  if strLt x y then -1 else if strLt y x then 1 else 0

/-! ## Relating a store before and after a request -/

/-- A row after a request is the same message as before: every column but
`read` is equal, and `read` has not gone from true to false. -/
def MessagePreserved (before after : Message) : Prop :=
  after.id = before.id ∧ after.senderId = before.senderId ∧
  after.receiverId = before.receiverId ∧ after.content = before.content ∧
  after.createdAt = before.createdAt ∧ (before.read = true → after.read = true)

/-- Every row of the message table before a request is still there after it, in
place and preserved; rows may have been added behind them. -/
def MessagesPreserved (before after : Store) : Prop :=
  List.Forall₂ MessagePreserved before.messages (after.messages.take before.messages.length)

/-! ## Example client data -/

/-- A list entry with the given id, display name, last message and unread
count, and nothing else. -/
def entry (id displayName : Str) (lastMessage : Option Message) (unreadCount : Nat) :
    ClientConversation :=
  { id := id, username := none, displayName := displayName, avatar := none,
    profileImage := none, details := none, lastMessage := lastMessage,
    unreadCount := unreadCount }

/-- A message from `"b"` to `"a"` created at the given time. -/
def inbound (createdAt : Nat) : Message :=
  { id := [49], senderId := [98], receiverId := [97], content := [104, 105], read := false,
    createdAt := createdAt }

/-- A client list: `"c"` without messages, `"b"` last written at 1000 with two
unread, `"d"` without messages. -/
def exampleList : List ClientConversation :=
  [entry [99] [99] none 0, entry [98] [98] (some (inbound 1000)) 2, entry [100] [100] none 0]

/-- A client state whose single conversation, with `"b"`, shows two unread
messages while the badge still shows one. -/
def staleBadgeState : ChatListState :=
  ⟨[entry [98] [98] (some (inbound 1000)) 2], 1⟩

/-- A client state over `exampleList` with a badge of five. -/
def exampleState : ChatListState := ⟨exampleList, 5⟩

/-- A message from `"a"` to `"b"`, unread. -/
def outbound : Message :=
  { id := [50], senderId := [97], receiverId := [98], content := [104, 105], read := false,
    createdAt := 2000 }

/-! ## Example data -/

/-- The identifier `"a"`. -/
def alice : Str := [97]

/-- The identifier `"b"`. -/
def bob : Str := [98]

/-- The identifier `"c"`. -/
def carol : Str := [99]

/-- The string `"hi"`. -/
def hi : Str := [104, 105]

/-- A user row with no display name and no details. -/
def plainUser (id : Str) : User :=
  { id := id, username := id, displayName := none, details := none }

/-- The empty store. -/
def emptyStore : Store := ⟨[], [], []⟩

/-- A store where `"a"` follows `"b"` and `"b"` has sent `"a"` one message,
still unread. -/
def oneUnreadStore : Store :=
  ⟨[plainUser alice, plainUser bob], [⟨alice, bob⟩],
   [{ id := [49], senderId := bob, receiverId := alice, content := hi, read := false,
      createdAt := 1000 }]⟩

/-- A store with no follows: `"a"` and `"b"` have exchanged two messages, and
`"c"` has written to `"a"` in between and most recently. -/
def interleavedStore : Store :=
  ⟨[plainUser alice, plainUser bob, plainUser carol], [],
   [{ id := [49], senderId := alice, receiverId := bob, content := hi, read := true,
      createdAt := 1000 },
    { id := [50], senderId := carol, receiverId := alice, content := hi, read := false,
      createdAt := 3000 },
    { id := [51], senderId := bob, receiverId := alice, content := hi, read := false,
      createdAt := 2000 }]⟩

/-- The summary of the conversation with `"b"` that `"a"` sees in
`interleavedStore`. -/
def interleavedSummary : ConversationSummary :=
  { id := bob, username := bob, displayName := bob, details := none, avatar := none,
    profileImage := none,
    lastMessage :=
      { id := [51], senderId := bob, receiverId := alice, content := hi, read := false,
        createdAt := 2000 },
    unreadCount := 1 }

/-- A store where `"a"` has written to `"c"`, who has no user row. -/
def orphanStore : Store :=
  ⟨[plainUser alice], [],
   [{ id := [49], senderId := alice, receiverId := carol, content := hi, read := false,
      createdAt := 1000 }]⟩

/-! ## Lemmas on strings and rooms -/

theorem strLt_irrefl (x : Str) : strLt x x = false := by
  induction x with
  | nil => rfl
  | cons a x ih => simp [strLt, ih]

theorem strLt_asymm : ∀ x y : Str, strLt x y = true → strLt y x = false
  | [], [], h => by simp [strLt] at h
  | [], _ :: _, _ => by simp [strLt]
  | _ :: _, [], h => by simp [strLt] at h
  | a :: x, b :: y, h => by
    simp only [strLt] at h ⊢
    by_cases hab : a < b
    · have hba : ¬ b < a := by omega
      simp [hba, hab]
    · by_cases hba : b < a
      · simp [hab, hba] at h
      · simp only [hab, hba, if_false] at h ⊢
        exact strLt_asymm x y h

theorem strLt_total : ∀ x y : Str, strLt x y = false → strLt y x = false → x = y
  | [], [], _, _ => rfl
  | [], _ :: _, h, _ => by simp [strLt] at h
  | _ :: _, [], _, h => by simp [strLt] at h
  | a :: x, b :: y, h₁, h₂ => by
    simp only [strLt] at h₁ h₂
    by_cases hab : a < b
    · simp [hab] at h₁
    · by_cases hba : b < a
      · simp [hba] at h₂
      · simp only [hab, hba, if_false] at h₁ h₂
        have : a = b := by omega
        rw [this, strLt_total x y h₁ h₂]

theorem jsSort_pair (a b : Str) :
    jsSort [a, b] = if strLt b a = false then [a, b] else [b, a] := by
  simp [jsSort, List.insertionSort, List.orderedInsert]

theorem jsSort_pair_comm (a b : Str) : jsSort [a, b] = jsSort [b, a] := by
  rw [jsSort_pair, jsSort_pair]
  cases hba : strLt b a <;> cases hab : strLt a b <;> simp
  · have := strLt_total a b hab hba
    simp [this]
  · have := strLt_asymm a b hab
    simp [this] at hba

theorem getDirectRoomId_ok (a b : Str) (ha : a ≠ []) (hb : b ≠ []) :
    getDirectRoomId a b = .ok (join underscore (jsSort [a, b])) := by
  cases a with
  | nil => exact absurd rfl ha
  | cons _ _ =>
    cases b with
    | nil => exact absurd rfl hb
    | cons _ _ => rfl

theorem getUserRoomId_ok (u : Str) (hu : u ≠ []) :
    getUserRoomId u = .ok (userPrefix ++ u) := by
  cases u with
  | nil => exact absurd rfl hu
  | cons _ _ => rfl

/-- A string that does not begin with `user:`, followed by `_`, never equals a
string that begins with `user:`. -/
theorem userPrefix_ne_join (x y u : Str) (hx : x ≠ []) (hp : ¬ userPrefix <+: x) :
    userPrefix ++ u ≠ x ++ underscore ++ y := by
  intro h
  apply hp
  simp only [userPrefix, underscore] at h ⊢
  rcases x with _ | ⟨x0, _ | ⟨x1, _ | ⟨x2, _ | ⟨x3, _ | ⟨x4, r⟩⟩⟩⟩⟩
  · exact absurd rfl hx
  all_goals simp at h
  obtain ⟨h0, h1, h2, h3, h4, _⟩ := h
  subst h0 h1 h2 h3 h4
  exact ⟨r, rfl⟩

/-! ## Realtime addressing: theorems -/

/-- C1: for non-empty identifiers `a` and `b`, `getDirectRoomId(a, b)` and
`getDirectRoomId(b, a)` both return, and return the same pair channel id. -/
theorem getDirectRoomId_symmetric (a b : Str) (ha : a ≠ []) (hb : b ≠ []) :
    ∃ r, getDirectRoomId a b = .ok r ∧ getDirectRoomId b a = .ok r := by
  refine ⟨join underscore (jsSort [a, b]), getDirectRoomId_ok a b ha hb, ?_⟩
  rw [getDirectRoomId_ok b a hb ha, jsSort_pair_comm b a]

/-- Witness for C1 at the identifiers `"b"` and `"a"`. -/
theorem getDirectRoomId_symmetric_witness :
    ∃ r, getDirectRoomId [98] [97] = .ok r ∧ getDirectRoomId [97] [98] = .ok r :=
  getDirectRoomId_symmetric [98] [97] (by decide) (by decide)

/-- C2, counterexample: the user channel of `"a_z"` and the pair channel of
`"user:a"` and `"z"` are the same string `"user:a_z"`. -/
theorem userRoom_pairRoom_collision :
    ¬ (∀ u a b : Str, u ≠ [] → a ≠ [] → b ≠ [] →
        getUserRoomId u ≠ getDirectRoomId a b) := by
  intro h
  exact h [97, 95, 122] [117, 115, 101, 114, 58, 97] [122]
    (by decide) (by decide) (by decide) rfl

/-- C2, amended: for non-empty identifiers `u`, `a`, `b` where neither `a` nor
`b` begins with `user:`, both room functions return and the user channel of `u`
differs from the pair channel of `a` and `b`. -/
theorem userRoom_ne_pairRoom (u a b : Str) (hu : u ≠ []) (ha : a ≠ []) (hb : b ≠ [])
    (hpa : ¬ userPrefix <+: a) (hpb : ¬ userPrefix <+: b) :
    ∃ r₁ r₂, getUserRoomId u = .ok r₁ ∧ getDirectRoomId a b = .ok r₂ ∧ r₁ ≠ r₂ := by
  refine ⟨_, _, getUserRoomId_ok u hu, getDirectRoomId_ok a b ha hb, ?_⟩
  rw [jsSort_pair]
  split
  · simpa [join, List.intercalate] using userPrefix_ne_join a b u ha hpa
  · simpa [join, List.intercalate] using userPrefix_ne_join b a u hb hpb

/-- Witness for the amended C2 at `u = "a_z"`, `a = "a"`, `b = "z"`. -/
theorem userRoom_ne_pairRoom_witness :
    ∃ r₁ r₂, getUserRoomId [97, 95, 122] = .ok r₁ ∧ getDirectRoomId [97] [122] = .ok r₂
      ∧ r₁ ≠ r₂ :=
  userRoom_ne_pairRoom [97, 95, 122] [97] [122] (by decide) (by decide) (by decide)
    (by decide) (by decide)

/-! ## Lemmas on the store and the handlers -/

theorem countMessages_append (db : Store) (m : Message) (p : Message → Bool) :
    countMessages { db with messages := db.messages ++ [m] } p =
      countMessages db p + (if p m then 1 else 0) := by
  simp only [countMessages, List.filter_append, List.length_append]
  cases h : p m <;> simp [List.filter, h]

theorem updateManyRead_count_zero (db : Store) (s r : Str) :
    countMessages (updateManyRead db (unreadFrom s r)).2 (unreadFrom s r) = 0 := by
  simp only [countMessages, updateManyRead, List.length_eq_zero, List.filter_eq_nil_iff,
    List.mem_map]
  rintro m ⟨m', _, rfl⟩
  by_cases h : unreadFrom s r m' = true
  · rw [if_pos h]; simp [unreadFrom]
  · rw [if_neg h]; exact h

theorem updateManyRead_of_count_zero (db : Store) (p : Message → Bool)
    (h : countMessages db p = 0) : (updateManyRead db p).2 = db := by
  simp only [countMessages, List.length_eq_zero, List.filter_eq_nil_iff] at h
  have : (db.messages.map fun m => if p m then { m with read := true } else m) = db.messages := by
    conv_rhs => rw [← List.map_id db.messages]
    apply List.map_congr_left
    intro m hm
    simp [h m hm]
  cases db
  simp only [updateManyRead] at this ⊢
  simp [this]

theorem updateManyRead_follows (db : Store) (p : Message → Bool) :
    (updateManyRead db p).2.follows = db.follows := rfl

theorem ensureConnection_congr (db db' : Store) (h : db'.follows = db.follows) (a b : Str) :
    ensureConnection db' a b = ensureConnection db a b := by
  simp [ensureConnection, h]

/-- What a send that answers 201 went through. -/
theorem sendMessage_created (sched : Schedule) (newId : Str) (now : Nat) (db : Store)
    (a b c : Str) (h : (sendMessage sched newId now db a (some b) (some c)).status = 201) :
    b ≠ [] ∧ trim c ≠ [] ∧ ensureConnection db a b = true ∧
    ∃ roomId, getDirectRoomId a b = .ok roomId ∧
      (promiseAll sched
        (emitConversationUpdate (createMessage db newId now a b (trim c)).2 a b)
        (emitConversationUpdate (createMessage db newId now a b (trim c)).2 b a)
        (emitUnreadTotal (createMessage db newId now a b (trim c)).2 b)).2 = true ∧
      sendMessage sched newId now db a (some b) (some c) =
        ⟨201, some (createMessage db newId now a b (trim c)).1,
          (createMessage db newId now a b (trim c)).2,
          ⟨roomId, .chatMessage (createMessage db newId now a b (trim c)).1 roomId⟩ ::
            (promiseAll sched
              (emitConversationUpdate (createMessage db newId now a b (trim c)).2 a b)
              (emitConversationUpdate (createMessage db newId now a b (trim c)).2 b a)
              (emitUnreadTotal (createMessage db newId now a b (trim c)).2 b)).1⟩ := by
  unfold sendMessage at h ⊢
  simp only [Option.getD_some, Option.map_some'] at h ⊢
  split at h
  · simp at h
  · rename_i h1
    split at h
    · simp at h
    · rename_i h2
      simp only [Bool.or_eq_true, List.isEmpty_iff, not_or] at h1
      simp only [Bool.not_eq_true', Bool.not_eq_false] at h2
      refine ⟨h1.1, h1.2, h2, ?_⟩
      rw [if_neg (by simp [h1.1, h1.2]), if_neg (by simp [h2])]
      cases hroom : getDirectRoomId a b with
      | error e => simp [hroom] at h
      | ok roomId =>
        simp only [hroom] at h ⊢
        refine ⟨roomId, rfl, ?_⟩
        split at h
        · rename_i hf
          exact ⟨hf, by simp [hf]⟩
        · simp at h

theorem markMessagesRead_db (sched : Schedule) (db : Store) (v o : Str)
    (h : ensureConnection db v o = true) :
    (markMessagesRead sched db v o).db = (updateManyRead db (unreadFrom o v)).2 := by
  unfold markMessagesRead
  simp only [h, Bool.not_true, Bool.false_eq_true, if_false]
  split
  · split
    · split <;> rfl
    · rfl
  · rfl

theorem markMessagesRead_of_count_zero (sched : Schedule) (db : Store) (v o : Str)
    (h : ensureConnection db v o = true)
    (h0 : countMessages db (unreadFrom o v) = 0) :
    markMessagesRead sched db v o = ⟨200, some 0, db, []⟩ := by
  unfold markMessagesRead
  have h1 : (updateManyRead db (unreadFrom o v)).1 = 0 := h0
  simp [h, h1, updateManyRead_of_count_zero db _ h0]

/-! ## Lemmas on tasks and fan-out -/

theorem mem_order {α : Type} (sched : Schedule) (a b c x : α) :
    x ∈ sched.order a b c ↔ x = a ∨ x = b ∨ x = c := by
  cases sched <;> simp [Schedule.order] <;> tauto

theorem mem_emitted (e : Emit) :
    ∀ ts : List (Except String (List Emit)),
      e ∈ emitted ts ↔ ∃ es, Except.ok es ∈ ts ∧ e ∈ es
  | [] => by simp [emitted]
  | .ok es :: ts => by
    simp only [emitted, List.mem_append, mem_emitted e ts, List.mem_cons]
    constructor
    · rintro (h | ⟨es', h1, h2⟩)
      · exact ⟨es, Or.inl rfl, h⟩
      · exact ⟨es', Or.inr h1, h2⟩
    · rintro ⟨es', h1 | h1, h2⟩
      · cases h1; exact Or.inl h2
      · exact Or.inr ⟨es', h1, h2⟩
  | .error _ :: ts => by
    simp only [emitted, mem_emitted e ts, List.mem_cons]
    constructor
    · rintro ⟨es', h1, h2⟩
      exact ⟨es', Or.inr h1, h2⟩
    · rintro ⟨es', h1 | h1, h2⟩
      · cases h1
      · exact ⟨es', h1, h2⟩

theorem allFulfilled_ok :
    ∀ ts : List (Except String (List Emit)),
      allFulfilled ts = true → ∀ t ∈ ts, ∃ es, t = Except.ok es
  | [], _, t, ht => by simp at ht
  | .ok es :: ts, h, t, ht => by
    simp only [allFulfilled] at h
    rcases List.mem_cons.1 ht with rfl | ht'
    · exact ⟨es, rfl⟩
    · exact allFulfilled_ok ts h t ht'
  | .error _ :: _, h, _, _ => by simp [allFulfilled] at h

theorem getUserRoomId_injective (a b r : Str) (ha : getUserRoomId a = .ok r)
    (hb : getUserRoomId b = .ok r) : a = b := by
  unfold getUserRoomId at ha hb
  split at ha
  · cases ha
  · split at hb
    · cases hb
    · cases ha
      injection hb with hb
      exact (List.append_cancel_left hb).symm

theorem emitConversationUpdate_ok (db : Store) (v o : Str) (es : List Emit)
    (h : emitConversationUpdate db v o = .ok es) :
    ∀ e ∈ es, e.payload.name = .conversationUpdated ∧ getUserRoomId v = .ok e.room := by
  unfold emitConversationUpdate at h
  split at h
  · cases h; simp
  · split at h
    · cases h
    · rename_i room hroom
      cases h
      intro e he
      simp only [List.mem_singleton] at he
      subst he
      exact ⟨rfl, hroom⟩

theorem emitUnreadTotal_ok (db : Store) (u : Str) (es : List Emit)
    (h : emitUnreadTotal db u = .ok es) :
    ∃ room, getUserRoomId u = .ok room ∧
      es = [⟨room, .unreadTotal (countMessages db (unreadFor u))⟩] := by
  unfold emitUnreadTotal at h
  simp only [] at h
  split at h
  · cases h
  · rename_i room hroom
    cases h
    exact ⟨room, hroom, rfl⟩

/-! ## Lemmas on summaries and the recent list -/

theorem mem_orderByCreatedAtDesc (l : List Message) (m : Message) :
    m ∈ orderByCreatedAtDesc l ↔ m ∈ l :=
  (List.perm_insertionSort _ l).mem_iff

theorem head_orderByCreatedAtDesc (l : List Message) (m : Message)
    (h : (orderByCreatedAtDesc l).head? = some m) :
    m ∈ l ∧ ∀ x ∈ l, x.createdAt ≤ m.createdAt := by
  haveI : IsTotal Message (fun a b => b.createdAt ≤ a.createdAt) :=
    ⟨fun a b => Nat.le_total b.createdAt a.createdAt⟩
  haveI : IsTrans Message (fun a b => b.createdAt ≤ a.createdAt) :=
    ⟨fun _ _ _ hab hbc => Nat.le_trans hbc hab⟩
  have hsorted := List.sorted_insertionSort (fun a b : Message => b.createdAt ≤ a.createdAt) l
  have hmem := mem_orderByCreatedAtDesc l
  unfold orderByCreatedAtDesc at h hmem
  cases hs : l.insertionSort (fun a b => b.createdAt ≤ a.createdAt) with
  | nil => rw [hs] at h; cases h
  | cons y t =>
    rw [hs] at h hsorted hmem
    simp only [List.head?_cons, Option.some.injEq] at h
    subst h
    refine ⟨(hmem y).1 (List.mem_cons_self _ _), ?_⟩
    intro x hx
    rcases List.mem_cons.1 ((hmem x).2 hx) with rfl | hx'
    · exact Nat.le_refl _
    · exact List.rel_of_sorted_cons hsorted x hx'

theorem head_orderByCreatedAtDesc_isSome (l : List Message) (m : Message) (hm : m ∈ l) :
    ∃ x, (orderByCreatedAtDesc l).head? = some x := by
  cases hs : orderByCreatedAtDesc l with
  | nil =>
    have := (mem_orderByCreatedAtDesc l m).2 hm
    rw [hs] at this
    cases this
  | cons y t => exact ⟨y, rfl⟩

/-- What `buildConversationSummary` returns when it returns a summary. -/
theorem buildConversationSummary_some (db : Store) (v o : Str) (c : ConversationSummary)
    (h : buildConversationSummary db v o = some c) :
    c.id = o ∧ (∃ u ∈ db.users, u.id = o) ∧
    (orderByCreatedAtDesc (db.messages.filter (betweenUsers v o))).head? = some c.lastMessage ∧
    c.unreadCount = countMessages db (unreadFrom o v) := by
  unfold buildConversationSummary at h
  simp only [] at h
  cases hu : db.users.find? (fun u => u.id == o) with
  | none => simp [hu, formatUserProfile] at h
  | some u =>
    cases hm : (orderByCreatedAtDesc (db.messages.filter (betweenUsers v o))).head? with
    | none => simp [hu, hm, formatUserProfile] at h
    | some m =>
      rw [hu, hm] at h
      simp only [formatUserProfile, Option.some.injEq] at h
      subst h
      have hid : u.id = o := by
        have := List.find?_some hu
        simpa using this
      exact ⟨hid, ⟨u, List.mem_of_find?_eq_some hu, hid⟩, rfl, rfl⟩

/-- When `buildConversationSummary` returns a summary. -/
theorem buildConversationSummary_isSome (db : Store) (v o : Str)
    (hu : ∃ u ∈ db.users, u.id = o)
    (hm : ∃ m ∈ db.messages, betweenUsers v o m = true) :
    ∃ c, buildConversationSummary db v o = some c := by
  obtain ⟨u, hu, hid⟩ := hu
  obtain ⟨m, hm, hb⟩ := hm
  obtain ⟨x, hx⟩ := head_orderByCreatedAtDesc_isSome (db.messages.filter (betweenUsers v o)) m
    (List.mem_filter.2 ⟨hm, hb⟩)
  cases hf : db.users.find? (fun u => u.id == o) with
  | none =>
    have := List.find?_eq_none.1 hf u hu
    simp [hid] at this
  | some u' =>
    unfold buildConversationSummary
    simp only [hf, hx, formatUserProfile]
    exact ⟨_, rfl⟩

theorem betweenUsers_iff (a b : Str) (m : Message) :
    betweenUsers a b m = true ↔
      (m.senderId = a ∧ m.receiverId = b) ∨ (m.senderId = b ∧ m.receiverId = a) := by
  simp [betweenUsers]

/-- A message is between the viewer and `p` exactly when it involves the viewer
and `p` is the viewer's partner in it. -/
theorem betweenUsers_iff_partner (v p : Str) (m : Message) :
    betweenUsers v p m = true ↔ involves v m = true ∧ partnerOf v m = p := by
  simp only [betweenUsers_iff, involves, partnerOf, Bool.or_eq_true, beq_iff_eq]
  by_cases hs : m.senderId = v
  · simp only [hs, if_true, true_and, true_or]
    constructor
    · rintro (h | ⟨h1, h2⟩)
      · exact h
      · rw [h2, ← h1]
    · intro h; exact Or.inl h
  · simp only [hs, if_false, false_and, false_or]
    constructor
    · rintro ⟨h1, h2⟩; exact ⟨h2, h1⟩
    · rintro ⟨h1, h2⟩; exact ⟨h2, h1⟩

/-- The loop of `getRecentChats` from any state in which `seen` and
`uniquePartnerIds` hold the same, distinct, identifiers. -/
theorem collect_fold (v : Str) :
    ∀ (ps : List Message) (acc : List Str × List Str),
      (∀ x, x ∈ acc.1 ↔ x ∈ acc.2) → acc.2.Nodup →
      (∀ x, x ∈ (ps.foldl
          (fun acc entry =>
            if acc.1.contains (partnerOf v entry) then acc
            else (partnerOf v entry :: acc.1, acc.2 ++ [partnerOf v entry])) acc).2 ↔
          x ∈ acc.2 ∨ ∃ m ∈ ps, partnerOf v m = x) ∧
      (ps.foldl
          (fun acc entry =>
            if acc.1.contains (partnerOf v entry) then acc
            else (partnerOf v entry :: acc.1, acc.2 ++ [partnerOf v entry])) acc).2.Nodup
  | [], acc, _, hn => by simp [hn]
  | m :: ps, acc, hinv, hn => by
    simp only [List.foldl_cons]
    by_cases hc : acc.1.contains (partnerOf v m) = true
    · rw [if_pos hc]
      obtain ⟨h1, h2⟩ := collect_fold v ps acc hinv hn
      refine ⟨fun x => ?_, h2⟩
      rw [h1 x]
      constructor
      · rintro (h | ⟨m', hm', hp⟩)
        · exact Or.inl h
        · exact Or.inr ⟨m', List.mem_cons_of_mem _ hm', hp⟩
      · rintro (h | ⟨m', hm', hp⟩)
        · exact Or.inl h
        · rcases List.mem_cons.1 hm' with rfl | hm''
          · left
            rw [← hp, ← hinv]
            simpa using hc
          · exact Or.inr ⟨m', hm'', hp⟩
    · rw [if_neg hc]
      have hnot : partnerOf v m ∉ acc.2 := by
        rw [← hinv]
        simpa using hc
      obtain ⟨h1, h2⟩ := collect_fold v ps
        (partnerOf v m :: acc.1, acc.2 ++ [partnerOf v m])
        (fun x => by simp [hinv x, or_comm])
        (by
          simp only
          exact List.Nodup.append hn (List.nodup_singleton _) (by simpa using hnot))
      refine ⟨fun x => ?_, h2⟩
      rw [h1 x]
      simp only [List.mem_append, List.mem_cons, List.not_mem_nil, or_false]
      constructor
      · rintro ((h | h) | ⟨m', hm', hp⟩)
        · exact Or.inl h
        · exact Or.inr ⟨m, Or.inl rfl, h.symm⟩
        · exact Or.inr ⟨m', Or.inr hm', hp⟩
      · rintro (h | ⟨m', hm' | hm', hp⟩)
        · exact Or.inl (Or.inl h)
        · subst hm'; exact Or.inl (Or.inr hp.symm)
        · exact Or.inr ⟨m', hm', hp⟩

theorem collectPartners_spec (v : Str) (ps : List Message) :
    (∀ x, x ∈ (collectPartners v ps).2 ↔ ∃ m ∈ ps, partnerOf v m = x) ∧
    (collectPartners v ps).2.Nodup := by
  obtain ⟨h1, h2⟩ := collect_fold v ps ([], []) (fun _ => Iff.rfl) List.nodup_nil
  refine ⟨fun x => ?_, h2⟩
  have := h1 x
  simpa [collectPartners] using this

theorem filterMap_ids_sublist (f : Str → Option ConversationSummary)
    (hf : ∀ p c, f p = some c → c.id = p) :
    ∀ l : List Str, ((l.filterMap f).map fun c => c.id).Sublist l
  | [] => by simp
  | p :: l => by
    cases hp : f p with
    | none =>
      rw [List.filterMap_cons_none hp]
      exact (filterMap_ids_sublist f hf l).cons p
    | some c =>
      rw [List.filterMap_cons_some hp, List.map_cons, hf p c hp]
      exact (filterMap_ids_sublist f hf l).cons₂ p

theorem mem_sortByLastMessageDesc (l : List ConversationSummary) (c : ConversationSummary) :
    c ∈ sortByLastMessageDesc l ↔ c ∈ l :=
  (List.perm_insertionSort _ l).mem_iff

/-! ## Lemmas on stable sorting and first-seen order -/

/-- Insertion into a list sorted by a key, largest first, goes after the larger
keys and before every entry with an equal key that it preceded. -/
theorem orderedInsert_stable {α : Type} (key : α → Nat) (R : α → α → Prop) (a : α) :
    ∀ s : List α,
      s.Pairwise (fun x y => key y < key x ∨ (key x = key y ∧ R x y)) →
      (∀ x ∈ s, R a x) →
      (List.orderedInsert (fun x y => key y ≤ key x) a s).Pairwise
        (fun x y => key y < key x ∨ (key x = key y ∧ R x y))
  | [], _, _ => by simp
  | b :: t, hs, ha => by
    rw [List.orderedInsert]
    have hb := List.pairwise_cons.1 hs
    split
    · rename_i hab
      refine List.pairwise_cons.2 ⟨?_, hs⟩
      intro y hy
      have hyb : key y ≤ key b := by
        rcases List.mem_cons.1 hy with rfl | hy'
        · exact Nat.le_refl _
        · rcases hb.1 y hy' with h | ⟨h, _⟩
          · exact Nat.le_of_lt h
          · exact Nat.le_of_eq h.symm
      rcases Nat.lt_or_ge (key y) (key a) with h | h
      · exact Or.inl h
      · exact Or.inr ⟨by omega, ha y hy⟩
    · rename_i hab
      refine List.pairwise_cons.2 ⟨?_, orderedInsert_stable key R a t hb.2
        (fun x hx => ha x (List.mem_cons_of_mem _ hx))⟩
      intro z hz
      rcases (List.mem_orderedInsert (fun x y => key y ≤ key x)).1 hz with rfl | hz'
      · exact Or.inl (by omega)
      · exact hb.1 z hz'

/-- The insertion sort by a key, largest first, is stable: entries with equal
keys keep the order they had. -/
theorem insertionSort_stable {α : Type} (key : α → Nat) (R : α → α → Prop) :
    ∀ l : List α, l.Pairwise R →
      (l.insertionSort (fun x y => key y ≤ key x)).Pairwise
        (fun x y => key y < key x ∨ (key x = key y ∧ R x y))
  | [], _ => by simp
  | a :: l, h => by
    have ha := List.pairwise_cons.1 h
    rw [List.insertionSort]
    exact orderedInsert_stable key R a _ (insertionSort_stable key R l ha.2)
      (fun x hx => ha.1 x ((List.mem_insertionSort _).1 hx))

theorem indexOf_append_of_mem_str (a : Str) :
    ∀ (l₁ l₂ : List Str), a ∈ l₁ → List.indexOf a (l₁ ++ l₂) = List.indexOf a l₁
  | [], _, h => by cases h
  | b :: l₁, l₂, h => by
    simp only [List.cons_append, List.indexOf_cons]
    by_cases hb : b = a
    · simp [hb]
    · have : a ∈ l₁ := by
        rcases List.mem_cons.1 h with h' | h'
        · exact absurd h'.symm hb
        · exact h'
      simp [hb, indexOf_append_of_mem_str a l₁ l₂ this]

theorem indexOf_append_of_not_mem_str (a : Str) :
    ∀ (l₁ l₂ : List Str), a ∉ l₁ →
      List.indexOf a (l₁ ++ l₂) = l₁.length + List.indexOf a l₂
  | [], _, _ => by simp
  | b :: l₁, l₂, h => by
    simp only [List.cons_append, List.indexOf_cons, List.length_cons]
    have hb : ¬ b = a := fun hb => h (by simp [hb])
    have hl : a ∉ l₁ := fun hl => h (List.mem_cons_of_mem _ hl)
    have hba : (b == a) = false := by simpa using hb
    simp only [hba, cond_false, indexOf_append_of_not_mem_str a l₁ l₂ hl]
    omega

theorem indexOf_lt_length_str (a : Str) :
    ∀ l : List Str, a ∈ l → List.indexOf a l < l.length
  | [], h => by cases h
  | b :: l, h => by
    simp only [List.indexOf_cons, List.length_cons]
    by_cases hb : b = a
    · simp [hb]
    · have : a ∈ l := by
        rcases List.mem_cons.1 h with h' | h'
        · exact absurd h'.symm hb
        · exact h'
      have := indexOf_lt_length_str a l this
      have hba : (b == a) = false := by simpa using hb
      simp only [hba, cond_false]
      omega

/-- The loop of `getRecentChats` over the partner ids of the scanned rows keeps
`uniquePartnerIds` in the order of first occurrence in the scan. -/
theorem firstSeen_fold (full : List Str) :
    ∀ (suf pre : List Str) (acc : List Str × List Str),
      full = pre ++ suf →
      (∀ x, x ∈ acc.1 ↔ x ∈ acc.2) → (∀ x, x ∈ acc.2 ↔ x ∈ pre) →
      acc.2.Pairwise (fun p q => List.indexOf p full < List.indexOf q full) →
      (suf.foldl
        (fun acc x => if acc.1.contains x then acc else (x :: acc.1, acc.2 ++ [x])) acc).2.Pairwise
        (fun p q => List.indexOf p full < List.indexOf q full)
  | [], _, _, _, _, _, hp => by simpa using hp
  | x :: suf, pre, acc, hfull, hinv, hpre, hp => by
    simp only [List.foldl_cons]
    have hfull' : full = (pre ++ [x]) ++ suf := by simp [hfull]
    by_cases hc : acc.1.contains x = true
    · rw [if_pos hc]
      have hx : x ∈ acc.2 := by rw [← hinv]; simpa using hc
      refine firstSeen_fold full suf (pre ++ [x]) acc hfull' hinv (fun y => ?_) hp
      rw [hpre y, List.mem_append, List.mem_singleton]
      constructor
      · exact Or.inl
      · rintro (h | rfl)
        · exact h
        · exact (hpre _).1 hx
    · rw [if_neg hc]
      have hx : x ∉ pre := by
        rw [← hpre, ← hinv]
        simpa using hc
      refine firstSeen_fold full suf (pre ++ [x]) (x :: acc.1, acc.2 ++ [x]) hfull'
        (fun y => by simp [hinv y, or_comm])
        (fun y => by simp [hpre y]) ?_
      refine List.pairwise_append.2 ⟨hp, List.pairwise_singleton _ _, ?_⟩
      intro p hp' q hq
      rw [List.mem_singleton] at hq
      subst hq
      have hp'' : p ∈ pre := (hpre p).1 hp'
      have hq0 : List.indexOf q (q :: suf) = 0 := by simp [List.indexOf_cons]
      rw [hfull, indexOf_append_of_mem_str p pre _ hp'', indexOf_append_of_not_mem_str q pre _ hx,
        hq0]
      have := indexOf_lt_length_str p pre hp''
      omega

theorem collectPartners_firstSeen (v : Str) (ps : List Message) :
    (collectPartners v ps).2.Pairwise (fun p q =>
      List.indexOf p (ps.map (partnerOf v)) < List.indexOf q (ps.map (partnerOf v))) := by
  have h := firstSeen_fold (ps.map (partnerOf v)) (ps.map (partnerOf v)) [] ([], []) rfl
    (fun _ => Iff.rfl) (fun _ => Iff.rfl) List.Pairwise.nil
  rw [List.foldl_map] at h
  exact h

/-! ## Lemmas on preserved messages -/

theorem messagePreserved_refl (m : Message) : MessagePreserved m m :=
  ⟨rfl, rfl, rfl, rfl, rfl, id⟩

theorem forall₂_preserved_map (f : Message → Message) (hf : ∀ m, MessagePreserved m (f m)) :
    ∀ l : List Message, List.Forall₂ MessagePreserved l (l.map f)
  | [] => List.Forall₂.nil
  | m :: l => List.Forall₂.cons (hf m) (forall₂_preserved_map f hf l)

theorem messagesPreserved_refl (db : Store) : MessagesPreserved db db := by
  unfold MessagesPreserved
  rw [List.take_length]
  simpa using forall₂_preserved_map id messagePreserved_refl db.messages

theorem messagesPreserved_create (db : Store) (newId : Str) (now : Nat) (a b c : Str) :
    MessagesPreserved db (createMessage db newId now a b c).2 := by
  unfold MessagesPreserved createMessage
  simp only [List.take_left']
  simpa using forall₂_preserved_map id messagePreserved_refl db.messages

theorem messagesPreserved_updateManyRead (db : Store) (p : Message → Bool) :
    MessagesPreserved db (updateManyRead db p).2 := by
  unfold MessagesPreserved updateManyRead
  have hlen : (db.messages.map fun m => if p m then { m with read := true } else m).length
      = db.messages.length := List.length_map _ _
  simp only
  rw [← hlen, List.take_length]
  refine forall₂_preserved_map _ (fun m => ?_) db.messages
  by_cases h : p m = true
  · rw [if_pos h]; exact ⟨rfl, rfl, rfl, rfl, rfl, fun _ => rfl⟩
  · rw [if_neg h]; exact messagePreserved_refl m

theorem sendMessage_db (sched : Schedule) (newId : Str) (now : Nat) (db : Store)
    (senderId : Str) (receiverId content : Option Str) :
    (sendMessage sched newId now db senderId receiverId content).db = db ∨
    (sendMessage sched newId now db senderId receiverId content).db
      = (createMessage db newId now senderId (receiverId.getD [])
          ((content.map trim).getD [])).2 := by
  unfold sendMessage
  simp only
  split
  · exact Or.inl rfl
  · split
    · exact Or.inl rfl
    · split
      · exact Or.inr rfl
      · split <;> exact Or.inr rfl

theorem getMessages_db (sched : Schedule) (db : Store) (v o : Str) :
    (getMessages sched db v o).db = db ∨
    (getMessages sched db v o).db = (updateManyRead db (unreadFrom o v)).2 := by
  unfold getMessages
  simp only
  split
  · exact Or.inl rfl
  · split
    · split <;> exact Or.inr rfl
    · exact Or.inr rfl

theorem markMessagesRead_db_cases (sched : Schedule) (db : Store) (v o : Str) :
    (markMessagesRead sched db v o).db = db ∨
    (markMessagesRead sched db v o).db = (updateManyRead db (unreadFrom o v)).2 := by
  cases h : ensureConnection db v o with
  | true => exact Or.inr (markMessagesRead_db sched db v o h)
  | false => left; simp [markMessagesRead, h]

/-! ## Lemmas on the client's ordering -/

theorem strLt_nil_right (x : Str) : strLt x [] = false := by
  cases x <;> rfl

theorem strLe_trans : ∀ x y z : Str,
    strLt y x = false → strLt z y = false → strLt z x = false
  | [], _, z, _, _ => strLt_nil_right z
  | _ :: _, [], _, h, _ => by simp [strLt] at h
  | _ :: _, _ :: _, [], _, h => by simp [strLt] at h
  | a :: x, b :: y, c :: z, h₁, h₂ => by
    simp only [strLt] at h₁ h₂ ⊢
    by_cases hba : b < a
    · simp [hba] at h₁
    · by_cases hcb : c < b
      · simp [hcb] at h₂
      · by_cases hab : a < b
        · have hca : ¬ c < a := by omega
          have hac : a < c := by omega
          simp [hca, hac]
        · by_cases hbc : b < c
          · have hca : ¬ c < a := by omega
            have hac : a < c := by omega
            simp [hca, hac]
          · have hca : ¬ c < a := by omega
            have hac : ¬ a < c := by omega
            simp only [hba, hab, hcb, hbc, hca, hac, if_false] at h₁ h₂ ⊢
            exact strLe_trans x y z h₁ h₂

theorem codeUnitCompare_le (x y : Str) : codeUnitCompare x y ≤ 0 ↔ strLt y x = false := by
  unfold codeUnitCompare
  cases hxy : strLt x y
  · cases hyx : strLt y x <;> simp
  · simp [strLt_asymm x y hxy]

theorem codeUnitCompare_total (x y : Str) :
    codeUnitCompare x y ≤ 0 ∨ codeUnitCompare y x ≤ 0 := by
  rw [codeUnitCompare_le, codeUnitCompare_le]
  cases h : strLt y x
  · exact Or.inl rfl
  · exact Or.inr (strLt_asymm y x h)

theorem codeUnitCompare_trans (x y z : Str) (h₁ : codeUnitCompare x y ≤ 0)
    (h₂ : codeUnitCompare y z ≤ 0) : codeUnitCompare x z ≤ 0 := by
  rw [codeUnitCompare_le] at h₁ h₂ ⊢
  exact strLe_trans x y z h₁ h₂

theorem compareConversations_total (lc : Str → Str → Int)
    (htotal : ∀ x y, lc x y ≤ 0 ∨ lc y x ≤ 0) (a b : ClientConversation) :
    compareConversations lc a b ≤ 0 ∨ compareConversations lc b a ≤ 0 := by
  unfold compareConversations
  cases a.lastMessage <;> cases b.lastMessage <;> simp only
  · exact htotal _ _
  · right; decide
  · left; decide
  · omega

theorem compareConversations_trans (lc : Str → Str → Int)
    (htrans : ∀ x y z, lc x y ≤ 0 → lc y z ≤ 0 → lc x z ≤ 0) (a b c : ClientConversation)
    (h₁ : compareConversations lc a b ≤ 0) (h₂ : compareConversations lc b c ≤ 0) :
    compareConversations lc a c ≤ 0 := by
  unfold compareConversations at h₁ h₂ ⊢
  cases ha : a.lastMessage <;> cases hb : b.lastMessage <;> cases hc : c.lastMessage <;>
    simp only [ha, hb, hc] at h₁ h₂ ⊢ <;> first
      | exact htrans _ _ _ h₁ h₂
      | omega

/-- With a consistent `localeCompare`, the result of `sortConversations` is
sorted by its comparator. -/
theorem sortConversations_sorted (lc : Str → Str → Int)
    (htotal : ∀ x y, lc x y ≤ 0 ∨ lc y x ≤ 0)
    (htrans : ∀ x y z, lc x y ≤ 0 → lc y z ≤ 0 → lc x z ≤ 0)
    (list : List ClientConversation) :
    (sortConversations lc list).Pairwise (fun a b => compareConversations lc a b ≤ 0) := by
  haveI : IsTotal ClientConversation (fun a b => compareConversations lc a b ≤ 0) :=
    ⟨compareConversations_total lc htotal⟩
  haveI : IsTrans ClientConversation (fun a b => compareConversations lc a b ≤ 0) :=
    ⟨compareConversations_trans lc htrans⟩
  exact List.sorted_insertionSort _ list

theorem sortConversations_perm (lc : Str → Str → Int) (list : List ClientConversation) :
    (sortConversations lc list).Perm list :=
  List.perm_insertionSort _ list

/-! ## Lemmas on the client's upsert -/

theorem handleConversationUpdate_some (lc : Str → Str → Int) (conv : Option RawConversation)
    (n : ClientConversation) (prev : List ClientConversation)
    (h : normalizeConversation conv = some n) :
    handleConversationUpdate lc conv prev =
      sortConversations lc
        (if (prev.any fun u => u.id == n.id) = true then
          prev.map fun u =>
            if u.id == n.id then { n with lastMessage := n.lastMessage.orElse fun _ => u.lastMessage }
            else u
        else
          (prev.map fun u =>
            if u.id == n.id then { n with lastMessage := n.lastMessage.orElse fun _ => u.lastMessage }
            else u) ++ [n]) := by
  unfold handleConversationUpdate
  rw [h]

theorem normalizeConversation_toRaw_id (c : ConversationSummary) :
    ∃ n, normalizeConversation (some c.toRaw) = some n ∧ n.id = c.id ∧
      n.lastMessage = some c.lastMessage ∧ n.unreadCount = c.unreadCount :=
  ⟨_, rfl, rfl, rfl, rfl⟩

/-- Mapping with a function that keeps every id and fixes the entries of other
ids does not change the entries of other ids. -/
theorem filter_ne_map_upsert (sid : Str) (f : ClientConversation → ClientConversation)
    (hf : ∀ u, (f u).id = sid ↔ u.id = sid) (hfix : ∀ u, u.id ≠ sid → f u = u) :
    ∀ l : List ClientConversation,
      (l.map f).filter (fun u => u.id != sid) = l.filter (fun u => u.id != sid)
  | [] => rfl
  | u :: l => by
    simp only [List.map_cons, List.filter_cons]
    by_cases hu : u.id = sid
    · have hfu : (f u).id = sid := (hf u).2 hu
      simp [hu, hfu, filter_ne_map_upsert sid f hf hfix l]
    · have hfu : ¬ (f u).id = sid := fun h => hu ((hf u).1 h)
      simp [hu, hfu, hfix u hu, filter_ne_map_upsert sid f hf hfix l]

theorem filter_eq_map_upsert (sid : Str) (f : ClientConversation → ClientConversation)
    (hf : ∀ u, (f u).id = sid ↔ u.id = sid) :
    ∀ l : List ClientConversation,
      (l.map f).filter (fun u => u.id == sid) = (l.filter (fun u => u.id == sid)).map f
  | [] => rfl
  | u :: l => by
    simp only [List.map_cons, List.filter_cons]
    by_cases hu : u.id = sid
    · have hfu : (f u).id = sid := (hf u).2 hu
      simp [hu, hfu, filter_eq_map_upsert sid f hf l]
    · have hfu : ¬ (f u).id = sid := fun h => hu ((hf u).1 h)
      simp [hu, hfu, filter_eq_map_upsert sid f hf l]

/-- In a list with distinct ids, at most one entry has a given id. -/
theorem filter_id_of_nodup (sid : Str) :
    ∀ l : List ClientConversation, (l.map fun u => u.id).Nodup →
      (sid ∉ l.map (fun u => u.id) ∧ l.filter (fun u => u.id == sid) = []) ∨
      (sid ∈ l.map (fun u => u.id) ∧ ∃ u, l.filter (fun u => u.id == sid) = [u])
  | [], _ => Or.inl ⟨by simp, rfl⟩
  | u :: l, h => by
    simp only [List.map_cons, List.nodup_cons] at h
    by_cases hu : u.id = sid
    · right
      have hnot : sid ∉ l.map (fun u => u.id) := hu ▸ h.1
      rcases filter_id_of_nodup sid l h.2 with ⟨_, hnil⟩ | ⟨hmem, _⟩
      · exact ⟨by simp [hu], u, by simp [List.filter_cons, hu, hnil]⟩
      · exact absurd hmem hnot
    · rcases filter_id_of_nodup sid l h.2 with ⟨hnot, hnil⟩ | ⟨hmem, u', hu'⟩
      · left
        refine ⟨?_, by simp [List.filter_cons, hu, hnil]⟩
        simp only [List.map_cons, List.mem_cons, not_or]
        exact ⟨fun h' => hu h'.symm, hnot⟩
      · right
        exact ⟨by simp only [List.map_cons]; exact List.mem_cons_of_mem _ hmem, u',
          by simp [List.filter_cons, hu, hu']⟩

theorem any_id_iff (sid : Str) (l : List ClientConversation) :
    (l.any fun u => u.id == sid) = true ↔ sid ∈ l.map (fun u => u.id) := by
  simp only [List.any_eq_true, beq_iff_eq, List.mem_map]

/-! ## Lemmas on the client's mark-read and on opening a conversation -/

/-- The `decrement` of `handleMarkRead` when every entry with the id has the
same unread count. -/
theorem decrement_fold (c : Str) (n : Nat) :
    ∀ (l : List ClientConversation) (d : Nat),
      (∀ u ∈ l, u.id = c → u.unreadCount = n) →
      l.foldl (fun d u => if u.id == c then u.unreadCount else d) d =
        if c ∈ l.map (fun u => u.id) then n else d
  | [], d, _ => by simp
  | u :: l, d, h => by
    simp only [List.foldl_cons]
    rw [decrement_fold c n l _ (fun u' hu' => h u' (List.mem_cons_of_mem _ hu'))]
    by_cases hmem : c ∈ l.map (fun u => u.id)
    · have : c ∈ (u :: l).map (fun u => u.id) := by
        simp only [List.map_cons]; exact List.mem_cons_of_mem _ hmem
      rw [if_pos hmem, if_pos this]
    · rw [if_neg hmem]
      by_cases hu : u.id = c
      · have : c ∈ (u :: l).map (fun u => u.id) := by simp [hu]
        rw [if_pos this]
        simp [hu, h u (List.mem_cons_self _ _) hu]
      · have : c ∉ (u :: l).map (fun u => u.id) := by
          simp only [List.map_cons, List.mem_cons, not_or]
          exact ⟨fun h' => hu h'.symm, hmem⟩
        rw [if_neg this]
        simp [hu]

theorem fanOut_names (sched : Schedule) (db : Store) (a b u : Str) :
    ∀ e ∈ (promiseAll sched (emitConversationUpdate db a b) (emitConversationUpdate db b a)
        (emitUnreadTotal db u)).1,
      e.payload.name = .conversationUpdated ∨ e.payload.name = .unreadTotal := by
  intro e he
  simp only [promiseAll] at he
  obtain ⟨es, hes, hmem⟩ := (mem_emitted e _).1 he
  rcases (mem_order sched _ _ _ _).1 hes with h0 | h1 | h2
  · exact Or.inl (emitConversationUpdate_ok _ a b es h0.symm e hmem).1
  · exact Or.inl (emitConversationUpdate_ok _ b a es h1.symm e hmem).1
  · obtain ⟨room, _, hes'⟩ := emitUnreadTotal_ok _ u es h2.symm
    subst hes'
    simp only [List.mem_singleton] at hmem
    subst hmem
    exact Or.inr rfl

theorem getMessages_events_names (sched : Schedule) (db : Store) (v o : Str) :
    ∀ e ∈ (getMessages sched db v o).events, e.payload.name ≠ .messagesRead := by
  intro e he hname
  unfold getMessages at he
  simp only at he
  split at he
  · simp at he
  · split at he
    · have hfan := fanOut_names sched (updateManyRead db (unreadFrom o v)).2 v o v e
      split at he
      · rcases hfan he with h | h <;> rw [h] at hname <;> cases hname
      · rcases hfan he with h | h <;> rw [h] at hname <;> cases hname
    · simp at he

theorem getMessages_db_connected (sched : Schedule) (db : Store) (v o : Str)
    (h : ensureConnection db v o = true) :
    (getMessages sched db v o).db = (updateManyRead db (unreadFrom o v)).2 := by
  unfold getMessages
  simp only [h, Bool.not_true, Bool.false_eq_true, if_false]
  split
  · split <;> rfl
  · rfl

/-- After `getMessages` by a connected viewer, `markMessagesRead` finds nothing
to mark. -/
theorem markMessagesRead_after_getMessages (s₁ s₂ : Schedule) (db : Store) (v o : Str)
    (h : ensureConnection db v o = true) :
    markMessagesRead s₂ (getMessages s₁ db v o).db v o =
      ⟨200, some 0, (getMessages s₁ db v o).db, []⟩ := by
  have hdb := getMessages_db_connected s₁ db v o h
  have hc : ensureConnection (getMessages s₁ db v o).db v o = true := by
    rw [ensureConnection_congr db _ (by rw [hdb]; rfl)]; exact h
  have h0 : countMessages (getMessages s₁ db v o).db (unreadFrom o v) = 0 := by
    rw [hdb]; exact updateManyRead_count_zero db o v
  exact markMessagesRead_of_count_zero s₂ _ v o hc h0

/-! ## The message controller: theorems -/

/-- C3, counterexample: with no connection between `"a"` and `"b"`, a send from
`"a"` to `"b"` whose content is a single space is answered 400, not 403. -/
theorem unconnected_send_blank_is_400 :
    ¬ (∀ (sched : Schedule) (newId : Str) (now : Nat) (db : Store) (a b : Str)
        (content : Option Str), ensureConnection db a b = false →
        (sendMessage sched newId now db a (some b) content).status = 403 ∧
        (getMessages sched db a b).status = 403) := by
  intro h
  have h400 : (sendMessage .s012 [49] 0 emptyStore alice (some bob) (some [32])).status = 400 := by
    decide
  have h403 := (h .s012 [49] 0 emptyStore alice bob (some [32]) (by decide)).1
  rw [h400] at h403
  exact absurd h403 (by decide)

/-- C3, amended: for users `a`, `b` with no connection record in either
direction, `sendMessage` from `a` to a non-empty receiver `b` with content that
is non-empty after trimming is answered 403, and `getMessages` by `a` for `b`
is answered 403. -/
theorem unconnected_is_forbidden (sched : Schedule) (newId : Str) (now : Nat) (db : Store)
    (a b c : Str) (hconn : ensureConnection db a b = false) (hb : b ≠ [])
    (hc : trim c ≠ []) :
    (sendMessage sched newId now db a (some b) (some c)).status = 403 ∧
    (getMessages sched db a b).status = 403 := by
  constructor
  · simp [sendMessage, hconn, hb, hc]
  · simp [getMessages, hconn]

/-- Witness for the amended C3 on the empty store. -/
theorem unconnected_is_forbidden_witness :
    (sendMessage .s012 [49] 0 emptyStore alice (some bob) (some hi)).status = 403 ∧
    (getMessages .s012 emptyStore alice bob).status = 403 :=
  unconnected_is_forbidden .s012 [49] 0 emptyStore alice bob hi (by decide) (by decide)
    (by decide)

/-- C4: when the receiver is missing or empty, or the content is missing or
empty after trimming, or sender and receiver are not connected, `sendMessage`
answers 400 or 403, leaves the store as it was and publishes no event. -/
theorem sendMessage_rejected_atomic (sched : Schedule) (newId : Str) (now : Nat) (db : Store)
    (senderId : Str) (receiverId content : Option Str)
    (h : receiverId.getD [] = [] ∨ (content.map trim).getD [] = [] ∨
      ensureConnection db senderId (receiverId.getD []) = false) :
    ((sendMessage sched newId now db senderId receiverId content).status = 400 ∨
      (sendMessage sched newId now db senderId receiverId content).status = 403) ∧
    (sendMessage sched newId now db senderId receiverId content).db = db ∧
    (sendMessage sched newId now db senderId receiverId content).events = [] := by
  unfold sendMessage
  simp only []
  split
  · simp
  · rename_i h1
    simp only [Bool.or_eq_true, List.isEmpty_iff, not_or] at h1
    rcases h with h | h | h
    · exact absurd h h1.1
    · exact absurd h h1.2
    · simp [h]

/-- Witness for C4: a blank send from `"a"` to `"b"` on a store that holds a
message. -/
theorem sendMessage_rejected_atomic_witness :
    ((sendMessage .s012 [50] 5 oneUnreadStore alice (some bob) (some [32, 10])).status = 400 ∨
      (sendMessage .s012 [50] 5 oneUnreadStore alice (some bob) (some [32, 10])).status = 403) ∧
    (sendMessage .s012 [50] 5 oneUnreadStore alice (some bob) (some [32, 10])).db
      = oneUnreadStore ∧
    (sendMessage .s012 [50] 5 oneUnreadStore alice (some bob) (some [32, 10])).events = [] :=
  sendMessage_rejected_atomic .s012 [50] 5 oneUnreadStore alice (some bob) (some [32, 10])
    (Or.inr (Or.inl (by decide)))

/-- C5: for a successful send from a user `a` to another user `b`, the
number of unread messages from `a` to `b` is one more than before and the
number of unread messages from `b` to `a` is unchanged. -/
theorem sendMessage_unread_counts (sched : Schedule) (newId : Str) (now : Nat) (db : Store)
    (a b c : Str) (hab : a ≠ b)
    (h : (sendMessage sched newId now db a (some b) (some c)).status = 201) :
    countMessages (sendMessage sched newId now db a (some b) (some c)).db (unreadFrom a b)
      = countMessages db (unreadFrom a b) + 1 ∧
    countMessages (sendMessage sched newId now db a (some b) (some c)).db (unreadFrom b a)
      = countMessages db (unreadFrom b a) := by
  obtain ⟨_, _, _, roomId, _, _, heq⟩ := sendMessage_created sched newId now db a b c h
  rw [heq]
  simp only [createMessage]
  rw [countMessages_append, countMessages_append]
  constructor
  · simp [unreadFrom]
  · simp [unreadFrom, hab]

/-- Witness for C5: `"a"` writes to `"b"` on a store where `"b"`
has one unread message for `"a"`. -/
theorem sendMessage_unread_counts_witness :
    countMessages (sendMessage .s012 [50] 2000 oneUnreadStore alice (some bob) (some hi)).db
        (unreadFrom alice bob)
      = countMessages oneUnreadStore (unreadFrom alice bob) + 1 ∧
    countMessages (sendMessage .s012 [50] 2000 oneUnreadStore alice (some bob) (some hi)).db
        (unreadFrom bob alice)
      = countMessages oneUnreadStore (unreadFrom bob alice) :=
  sendMessage_unread_counts .s012 [50] 2000 oneUnreadStore alice bob hi (by decide) (by decide)

/-- C6: for a connected viewer and counterpart, a second `markMessagesRead`
right after a first one answers 200 with `rowsUpdated` 0, leaves the store as
the first call left it and publishes no event. -/
theorem markMessagesRead_idempotent (s₁ s₂ : Schedule) (db : Store) (v o : Str)
    (h : ensureConnection db v o = true) :
    (markMessagesRead s₂ (markMessagesRead s₁ db v o).db v o).status = 200 ∧
    (markMessagesRead s₂ (markMessagesRead s₁ db v o).db v o).body = some 0 ∧
    (markMessagesRead s₂ (markMessagesRead s₁ db v o).db v o).db
      = (markMessagesRead s₁ db v o).db ∧
    (markMessagesRead s₂ (markMessagesRead s₁ db v o).db v o).events = [] := by
  rw [markMessagesRead_db s₁ db v o h]
  have hc : ensureConnection (updateManyRead db (unreadFrom o v)).2 v o = true := by
    rw [ensureConnection_congr db _ (updateManyRead_follows db _)]; exact h
  rw [markMessagesRead_of_count_zero s₂ _ v o hc (updateManyRead_count_zero db o v)]
  exact ⟨rfl, rfl, rfl, rfl⟩

/-- Witness for C6 on a store with one unread message from `"b"` to `"a"`. -/
theorem markMessagesRead_idempotent_witness :
    (markMessagesRead .s120 (markMessagesRead .s012 oneUnreadStore alice bob).db alice bob).status
      = 200 ∧
    (markMessagesRead .s120 (markMessagesRead .s012 oneUnreadStore alice bob).db alice bob).body
      = some 0 ∧
    (markMessagesRead .s120 (markMessagesRead .s012 oneUnreadStore alice bob).db alice bob).db
      = (markMessagesRead .s012 oneUnreadStore alice bob).db ∧
    (markMessagesRead .s120 (markMessagesRead .s012 oneUnreadStore alice bob).db alice bob).events
      = [] :=
  markMessagesRead_idempotent .s012 .s120 oneUnreadStore alice bob (by decide)

/-- C7, the code at the failing input: on a store where `"b"` has one unread
message for `"a"`, `getMessages` by `"a"` marks one row read and publishes the
two summaries and the unread total but no `chat:messages-read`, whereas
`markMessagesRead` on the same store ends with `chat:messages-read` on the pair
channel `"a_b"`. -/
theorem getMessages_omits_messagesRead :
    (updateManyRead oneUnreadStore (unreadFrom bob alice)).1 = 1 ∧
    (getMessages .s012 oneUnreadStore alice bob).status = 200 ∧
    (getMessages .s012 oneUnreadStore alice bob).events.map (fun e => (e.room, e.payload.name))
      = [(userPrefix ++ alice, .conversationUpdated), (userPrefix ++ bob, .conversationUpdated),
         (userPrefix ++ alice, .unreadTotal)] ∧
    (markMessagesRead .s012 oneUnreadStore alice bob).events.map
        (fun e => (e.room, e.payload.name))
      = [(userPrefix ++ alice, .conversationUpdated), (userPrefix ++ bob, .conversationUpdated),
         (userPrefix ++ alice, .unreadTotal), ([97, 95, 98], .messagesRead)] := by
  decide

/-- C8: for a successful send from a user `a` to another user `b`, the
published sequence starts with `chat:message` on the pair channel of `a` and
`b`, carrying the created message; every event after it is a
`chat:conversation-updated` on the user channel of `a` or of `b`, or a
`chat:unread-total` on the user channel of `b`; the latter is published; and no
`chat:unread-total` goes to the user channel of `a`. -/
theorem sendMessage_event_order (sched : Schedule) (newId : Str) (now : Nat) (db : Store)
    (a b c : Str) (hab : a ≠ b)
    (h : (sendMessage sched newId now db a (some b) (some c)).status = 201) :
    ∃ roomId message rest,
      getDirectRoomId a b = .ok roomId ∧
      (sendMessage sched newId now db a (some b) (some c)).body = some message ∧
      (sendMessage sched newId now db a (some b) (some c)).events
        = ⟨roomId, .chatMessage message roomId⟩ :: rest ∧
      (∀ e ∈ rest,
        (e.payload.name = .conversationUpdated ∧
          (getUserRoomId a = .ok e.room ∨ getUserRoomId b = .ok e.room)) ∨
        (e.payload.name = .unreadTotal ∧ getUserRoomId b = .ok e.room)) ∧
      (∃ e ∈ rest, e.payload.name = .unreadTotal ∧ getUserRoomId b = .ok e.room) ∧
      (∀ e ∈ (sendMessage sched newId now db a (some b) (some c)).events,
        e.payload.name = .unreadTotal → getUserRoomId a ≠ .ok e.room) := by
  obtain ⟨_, _, _, roomId, hroom, hful, heq⟩ := sendMessage_created sched newId now db a b c h
  have hrest : ∀ e ∈ (promiseAll sched
        (emitConversationUpdate (createMessage db newId now a b (trim c)).2 a b)
        (emitConversationUpdate (createMessage db newId now a b (trim c)).2 b a)
        (emitUnreadTotal (createMessage db newId now a b (trim c)).2 b)).1,
      (e.payload.name = .conversationUpdated ∧
        (getUserRoomId a = .ok e.room ∨ getUserRoomId b = .ok e.room)) ∨
      (e.payload.name = .unreadTotal ∧ getUserRoomId b = .ok e.room) := by
    intro e he
    simp only [promiseAll] at he
    obtain ⟨es, hes, hmem⟩ := (mem_emitted e _).1 he
    rcases (mem_order sched _ _ _ _).1 hes with h0 | h1 | h2
    · have := emitConversationUpdate_ok _ a b es h0.symm e hmem
      exact Or.inl ⟨this.1, Or.inl this.2⟩
    · have := emitConversationUpdate_ok _ b a es h1.symm e hmem
      exact Or.inl ⟨this.1, Or.inr this.2⟩
    · obtain ⟨room, hr, hes'⟩ := emitUnreadTotal_ok _ b es h2.symm
      subst hes'
      simp only [List.mem_singleton] at hmem
      subst hmem
      exact Or.inr ⟨rfl, hr⟩
  rw [heq]
  refine ⟨roomId, _, _, hroom, rfl, rfl, hrest, ?_, ?_⟩
  · simp only [promiseAll] at hful
    obtain ⟨es, hes⟩ := allFulfilled_ok _ hful
      (emitUnreadTotal (createMessage db newId now a b (trim c)).2 b)
      ((mem_order sched _ _ _ _).2 (Or.inr (Or.inr rfl)))
    obtain ⟨room, hr, hes'⟩ := emitUnreadTotal_ok _ b es hes
    refine ⟨⟨room, .unreadTotal
      (countMessages (createMessage db newId now a b (trim c)).2 (unreadFor b))⟩, ?_, rfl, hr⟩
    simp only [promiseAll]
    refine (mem_emitted _ _).2 ⟨es, ?_, by simp [hes']⟩
    rw [← hes]
    exact (mem_order sched _ _ _ _).2 (Or.inr (Or.inr rfl))
  · intro e he hname hroomA
    rcases List.mem_cons.1 he with rfl | he'
    · simp [EventPayload.name] at hname
    · rcases hrest e he' with ⟨hn, _⟩ | ⟨_, hroomB⟩
      · rw [hn] at hname; cases hname
      · exact hab (getUserRoomId_injective a b e.room hroomA hroomB)

/-- Witness for C8: `"a"` writes to `"b"` where `"a"` follows
`"b"`. -/
theorem sendMessage_event_order_witness :
    ∃ roomId message rest,
      getDirectRoomId alice bob = .ok roomId ∧
      (sendMessage .s201 [50] 2000 oneUnreadStore alice (some bob) (some hi)).body
        = some message ∧
      (sendMessage .s201 [50] 2000 oneUnreadStore alice (some bob) (some hi)).events
        = ⟨roomId, .chatMessage message roomId⟩ :: rest ∧
      (∀ e ∈ rest,
        (e.payload.name = .conversationUpdated ∧
          (getUserRoomId alice = .ok e.room ∨ getUserRoomId bob = .ok e.room)) ∨
        (e.payload.name = .unreadTotal ∧ getUserRoomId bob = .ok e.room)) ∧
      (∃ e ∈ rest, e.payload.name = .unreadTotal ∧ getUserRoomId bob = .ok e.room) ∧
      (∀ e ∈ (sendMessage .s201 [50] 2000 oneUnreadStore alice (some bob) (some hi)).events,
        e.payload.name = .unreadTotal → getUserRoomId alice ≠ .ok e.room) :=
  sendMessage_event_order .s201 [50] 2000 oneUnreadStore alice bob hi (by decide) (by decide)

/-- C9: when `buildConversationSummary` returns a summary for a viewer and a
counterpart, its `lastMessage` is a stored message between exactly those two
users and no message between them has a later `createdAt`; and on any other
store with the same users whose messages between the two are the same, in the
same order (other pairs' messages added, removed or moved), it returns a
summary with the same `lastMessage`. -/
theorem lastMessage_most_recent (db : Store) (v o : Str) (c : ConversationSummary)
    (h : buildConversationSummary db v o = some c) :
    (c.lastMessage ∈ db.messages ∧ betweenUsers v o c.lastMessage = true ∧
      ∀ m ∈ db.messages, betweenUsers v o m = true →
        m.createdAt ≤ c.lastMessage.createdAt) ∧
    ∀ db' : Store, db'.users = db.users →
      db'.messages.filter (betweenUsers v o) = db.messages.filter (betweenUsers v o) →
      ∃ c', buildConversationSummary db' v o = some c' ∧ c'.lastMessage = c.lastMessage := by
  obtain ⟨_, hu, hhead, _⟩ := buildConversationSummary_some db v o c h
  obtain ⟨hmem, hmax⟩ := head_orderByCreatedAtDesc _ _ hhead
  rw [List.mem_filter] at hmem
  refine ⟨⟨hmem.1, hmem.2, fun m hm hb => hmax m (List.mem_filter.2 ⟨hm, hb⟩)⟩, ?_⟩
  intro db' husers hfilter
  obtain ⟨c', hc'⟩ := buildConversationSummary_isSome db' v o (by rw [husers]; exact hu)
    ⟨c.lastMessage, by
      have : c.lastMessage ∈ db'.messages.filter (betweenUsers v o) := by
        rw [hfilter]; exact List.mem_filter.2 hmem
      exact (List.mem_filter.1 this).1, hmem.2⟩
  refine ⟨c', hc', ?_⟩
  obtain ⟨_, _, hhead', _⟩ := buildConversationSummary_some db' v o c' hc'
  rw [hfilter, hhead] at hhead'
  exact (Option.some.inj hhead').symm

/-- Witness for C9: the conversation of `"a"` with `"b"` in a store where a
message from `"c"` is both interleaved and the most recent overall. -/
theorem lastMessage_most_recent_witness :
    (interleavedSummary.lastMessage ∈ interleavedStore.messages ∧
      betweenUsers alice bob interleavedSummary.lastMessage = true ∧
      ∀ m ∈ interleavedStore.messages, betweenUsers alice bob m = true →
        m.createdAt ≤ interleavedSummary.lastMessage.createdAt) ∧
    ∀ db' : Store, db'.users = interleavedStore.users →
      db'.messages.filter (betweenUsers alice bob)
        = interleavedStore.messages.filter (betweenUsers alice bob) →
      ∃ c', buildConversationSummary db' alice bob = some c' ∧
        c'.lastMessage = interleavedSummary.lastMessage :=
  lastMessage_most_recent interleavedStore alice bob interleavedSummary (by decide)

/-- C10, counterexample: `"a"` has written to `"c"`, who has no user row; the
list returned to `"a"` by `getRecentChats` has no summary for `"c"`. -/
theorem recentChats_omits_profileless_partner :
    ¬ (∀ (db : Store) (v p : Str), ∃ l, (getRecentChats db v).body = some l ∧
        ((∃ c ∈ l, c.id = p) ↔ ∃ m ∈ db.messages, betweenUsers v p m = true)) := by
  intro h
  obtain ⟨l, hl, hiff⟩ := h orphanStore alice carol
  have hnil : (getRecentChats orphanStore alice).body = some [] := by decide
  rw [hnil] at hl
  cases hl
  obtain ⟨c, hc, _⟩ := hiff.2 (by decide)
  cases hc

/-- C10, amended: the list returned by `getRecentChats` contains a summary for
counterpart `p` if and only if `p` has a user row and at least one message has
been exchanged between the viewer and `p` in either direction, whatever the
follows table holds; and no two summaries of the list have the same id. -/
theorem recentChats_membership (db : Store) (v : Str) :
    ∃ l, (getRecentChats db v).body = some l ∧
      (∀ p, (∃ c ∈ l, c.id = p) ↔
        ((∃ u ∈ db.users, u.id = p) ∧ ∃ m ∈ db.messages, betweenUsers v p m = true)) ∧
      (l.map fun c => c.id).Nodup := by
  refine ⟨_, rfl, ?_, ?_⟩
  · intro p
    obtain ⟨hpart, _⟩ := collectPartners_spec v
      (orderByCreatedAtDesc (db.messages.filter (involves v)))
    simp only [mem_sortByLastMessageDesc, List.filterMap_map, List.mem_filterMap,
      Function.comp_apply, id_eq]
    constructor
    · rintro ⟨c, ⟨q, _, hq⟩, hid⟩
      obtain ⟨hcid, hu, hhead, _⟩ := buildConversationSummary_some db v q c hq
      have hqp : q = p := by rw [← hcid, hid]
      subst hqp
      obtain ⟨hmem, _⟩ := head_orderByCreatedAtDesc _ _ hhead
      rw [List.mem_filter] at hmem
      exact ⟨hu, c.lastMessage, hmem.1, hmem.2⟩
    · rintro ⟨hu, m, hm, hb⟩
      obtain ⟨c, hc⟩ := buildConversationSummary_isSome db v p hu ⟨m, hm, hb⟩
      obtain ⟨hinv, hp⟩ := (betweenUsers_iff_partner v p m).1 hb
      refine ⟨c, ⟨p, ?_, hc⟩, (buildConversationSummary_some db v p c hc).1⟩
      rw [hpart]
      exact ⟨m, (mem_orderByCreatedAtDesc _ m).2 (List.mem_filter.2 ⟨hm, hinv⟩), hp⟩
  · obtain ⟨_, hnodup⟩ := collectPartners_spec v
      (orderByCreatedAtDesc (db.messages.filter (involves v)))
    have hperm : (sortByLastMessageDesc
        (((collectPartners v (orderByCreatedAtDesc (db.messages.filter (involves v)))).2.map
          fun partnerId => buildConversationSummary db v partnerId).filterMap id)).Perm
        ((collectPartners v (orderByCreatedAtDesc (db.messages.filter (involves v)))).2.filterMap
          fun partnerId => buildConversationSummary db v partnerId) := by
      unfold sortByLastMessageDesc
      refine (List.perm_insertionSort _ _).trans ?_
      rw [List.filterMap_map]
      rfl
    refine ((hperm.map fun c => c.id).nodup_iff).2 ?_
    exact (filterMap_ids_sublist (fun p => buildConversationSummary db v p)
      (fun p c hc => (buildConversationSummary_some db v p c hc).1) _).nodup hnodup

/-- C11: the list returned by `getRecentChats` is in non-increasing order of
`lastMessage.createdAt`, and of two summaries with equal `lastMessage.createdAt`
the one listed first is the one whose counterpart occurs first in the scan of
the viewer's messages in `createdAt` descending order. -/
theorem recentChats_order (db : Store) (v : Str) :
    ∃ l, (getRecentChats db v).body = some l ∧
      l.Pairwise (fun a b => b.lastMessage.createdAt ≤ a.lastMessage.createdAt) ∧
      l.Pairwise (fun a b => a.lastMessage.createdAt = b.lastMessage.createdAt →
        List.indexOf a.id
            ((orderByCreatedAtDesc (db.messages.filter (involves v))).map (partnerOf v)) <
          List.indexOf b.id
            ((orderByCreatedAtDesc (db.messages.filter (involves v))).map (partnerOf v))) := by
  have hseen := collectPartners_firstSeen v (orderByCreatedAtDesc (db.messages.filter (involves v)))
  have hsummaries := List.Pairwise.filterMap
    (S := fun a b : ConversationSummary =>
      List.indexOf a.id
          ((orderByCreatedAtDesc (db.messages.filter (involves v))).map (partnerOf v)) <
        List.indexOf b.id
          ((orderByCreatedAtDesc (db.messages.filter (involves v))).map (partnerOf v)))
    (fun partnerId => buildConversationSummary db v partnerId)
    (fun p q hpq c hc c' hc' => by
      have h1 := (buildConversationSummary_some db v p c (Option.mem_def.1 hc)).1
      have h2 := (buildConversationSummary_some db v q c' (Option.mem_def.1 hc')).1
      simp only [h1, h2]
      exact hpq)
    hseen
  have hstable := insertionSort_stable (fun c : ConversationSummary => c.lastMessage.createdAt)
    _ _ hsummaries
  refine ⟨_, rfl, ?_, ?_⟩
  · simp only [sortByLastMessageDesc, List.filterMap_map, Function.comp_def, id_eq]
    refine hstable.imp ?_
    rintro a b (h | ⟨h, _⟩)
    · exact Nat.le_of_lt h
    · exact Nat.le_of_eq h.symm
  · simp only [sortByLastMessageDesc, List.filterMap_map, Function.comp_def, id_eq]
    refine hstable.imp ?_
    rintro a b (h | ⟨_, h⟩) heq
    · exact absurd heq (Nat.ne_of_gt h)
    · exact h

/-- C12: after `sendMessage`, `getMessages`, `getRecentChats`, `getUnreadCount`
or `markMessagesRead`, whatever the request, every message row that existed
before is still in its place with the same id, sender, receiver, content and
`createdAt`, and a row that was read is still read. -/
theorem controller_preserves_messages (sched : Schedule) (newId : Str) (now : Nat)
    (db : Store) (userId otherUserId : Str) (receiverId content : Option Str) :
    MessagesPreserved db (sendMessage sched newId now db userId receiverId content).db ∧
    MessagesPreserved db (getMessages sched db userId otherUserId).db ∧
    MessagesPreserved db (getRecentChats db userId).db ∧
    MessagesPreserved db (getUnreadCount db userId).db ∧
    MessagesPreserved db (markMessagesRead sched db userId otherUserId).db := by
  refine ⟨?_, ?_, messagesPreserved_refl db, messagesPreserved_refl db, ?_⟩
  · rcases sendMessage_db sched newId now db userId receiverId content with h | h
    · rw [h]; exact messagesPreserved_refl db
    · rw [h]; exact messagesPreserved_create db newId now _ _ _
  · rcases getMessages_db sched db userId otherUserId with h | h
    · rw [h]; exact messagesPreserved_refl db
    · rw [h]; exact messagesPreserved_updateManyRead db _
  · rcases markMessagesRead_db_cases sched db userId otherUserId with h | h
    · rw [h]; exact messagesPreserved_refl db
    · rw [h]; exact messagesPreserved_updateManyRead db _

/-! ## The client views: theorems -/

/-- C13: with a `localeCompare` that is a consistent comparator, the result of
`sortConversations` is a permutation of its input in which no entry without a
last message comes before one with a last message, entries with a last message
are in non-increasing order of `lastMessage.createdAt`, and entries without one
are in `localeCompare` order of `displayName`. -/
theorem sortConversations_order (lc : Str → Str → Int)
    (htotal : ∀ x y, lc x y ≤ 0 ∨ lc y x ≤ 0)
    (htrans : ∀ x y z, lc x y ≤ 0 → lc y z ≤ 0 → lc x z ≤ 0)
    (list : List ClientConversation) :
    (sortConversations lc list).Perm list ∧
    (sortConversations lc list).Pairwise
      (fun a b => b.lastMessage.isSome = true → a.lastMessage.isSome = true) ∧
    (sortConversations lc list).Pairwise
      (fun a b => ∀ ma mb, a.lastMessage = some ma → b.lastMessage = some mb →
        mb.createdAt ≤ ma.createdAt) ∧
    (sortConversations lc list).Pairwise
      (fun a b => a.lastMessage = none → b.lastMessage = none →
        lc a.displayName b.displayName ≤ 0) := by
  have hsorted := sortConversations_sorted lc htotal htrans list
  refine ⟨sortConversations_perm lc list, hsorted.imp ?_, hsorted.imp ?_, hsorted.imp ?_⟩
  · intro a b h hb
    unfold compareConversations at h
    cases ha : a.lastMessage with
    | some _ => rfl
    | none =>
      cases hb' : b.lastMessage with
      | none => rw [hb'] at hb; cases hb
      | some _ =>
        rw [ha, hb'] at h
        simp only at h
        omega
  · intro a b h ma mb ha hb
    unfold compareConversations at h
    rw [ha, hb] at h
    simp only at h
    omega
  · intro a b h ha hb
    unfold compareConversations at h
    rw [ha, hb] at h
    exact h

/-- Witness for C13 with the code-unit `localeCompare`, on a list where an
entry with a message stands between two entries without. -/
theorem sortConversations_order_witness :
    (sortConversations codeUnitCompare exampleList).Perm exampleList ∧
    (sortConversations codeUnitCompare exampleList).Pairwise
      (fun a b => b.lastMessage.isSome = true → a.lastMessage.isSome = true) ∧
    (sortConversations codeUnitCompare exampleList).Pairwise
      (fun a b => ∀ ma mb, a.lastMessage = some ma → b.lastMessage = some mb →
        mb.createdAt ≤ ma.createdAt) ∧
    (sortConversations codeUnitCompare exampleList).Pairwise
      (fun a b => a.lastMessage = none → b.lastMessage = none →
        codeUnitCompare a.displayName b.displayName ≤ 0) :=
  sortConversations_order codeUnitCompare codeUnitCompare_total codeUnitCompare_trans
    exampleList

/-- C14: with a `localeCompare` that is a consistent comparator, for a client
list with distinct ids and a conversation-updated event carrying the summary
`c`, the list after `handleConversationUpdate` has exactly one entry with id
`c.id`, which carries `c.lastMessage` and `c.unreadCount`; its entries of other
ids are those of the list before; its length is the same when `c.id` was in the
list and one more when it was not; and it is sorted by the comparator of
`sortConversations`. -/
theorem handleConversationUpdate_upsert (lc : Str → Str → Int)
    (htotal : ∀ x y, lc x y ≤ 0 ∨ lc y x ≤ 0)
    (htrans : ∀ x y z, lc x y ≤ 0 → lc y z ≤ 0 → lc x z ≤ 0)
    (prev : List ClientConversation) (hnodup : (prev.map fun u => u.id).Nodup)
    (c : ConversationSummary) :
    (∃ e, (handleConversationUpdate lc (some c.toRaw) prev).filter (fun u => u.id == c.id) = [e] ∧
      e.lastMessage = some c.lastMessage ∧ e.unreadCount = c.unreadCount) ∧
    ((handleConversationUpdate lc (some c.toRaw) prev).filter (fun u => u.id != c.id)).Perm
      (prev.filter (fun u => u.id != c.id)) ∧
    (handleConversationUpdate lc (some c.toRaw) prev).length =
      (if c.id ∈ prev.map (fun u => u.id) then prev.length else prev.length + 1) ∧
    (handleConversationUpdate lc (some c.toRaw) prev).Pairwise
      (fun a b => compareConversations lc a b ≤ 0) := by
  obtain ⟨n, hn, hid, hlast, hunread⟩ := normalizeConversation_toRaw_id c
  rw [handleConversationUpdate_some lc _ n prev hn, ← hid]
  have hf : ∀ u : ClientConversation,
      (if u.id == n.id then
          ({ n with lastMessage := n.lastMessage.orElse fun _ => u.lastMessage } :
            ClientConversation)
        else u).id = n.id ↔ u.id = n.id := by
    intro u
    by_cases hu : u.id = n.id
    · simp [hu]
    · simp [hu]
  have hfix : ∀ u : ClientConversation, u.id ≠ n.id →
      (if u.id == n.id then
          ({ n with lastMessage := n.lastMessage.orElse fun _ => u.lastMessage } :
            ClientConversation)
        else u) = u := by
    intro u hu
    simp [hu]
  have hne := filter_ne_map_upsert n.id _ hf hfix prev
  have heq := filter_eq_map_upsert n.id _ hf prev
  refine ⟨?_, ?_, ?_, sortConversations_sorted lc htotal htrans _⟩
  · rcases filter_id_of_nodup n.id prev hnodup with ⟨hnot, hnil⟩ | ⟨hmem, u, hu⟩
    · have hany : ¬ (prev.any fun u => u.id == n.id) = true :=
        fun h => hnot ((any_id_iff n.id prev).1 h)
      rw [if_neg hany]
      refine ⟨n, ?_, hlast, hunread⟩
      refine List.perm_singleton.1 (((sortConversations_perm lc _).filter _).trans ?_)
      rw [List.filter_append, heq, hnil]
      simp [List.filter_cons]
    · have hany : (prev.any fun u => u.id == n.id) = true := (any_id_iff n.id prev).2 hmem
      rw [if_pos hany]
      refine ⟨{ n with lastMessage := n.lastMessage.orElse fun _ => u.lastMessage }, ?_, ?_,
        hunread⟩
      · refine List.perm_singleton.1 (((sortConversations_perm lc _).filter _).trans ?_)
        have huid : u.id = n.id := by
          have : u ∈ prev.filter (fun u => u.id == n.id) := by rw [hu]; simp
          simpa using (List.mem_filter.1 this).2
        rw [heq, hu]
        simp [huid]
      · simp [hlast]
  · refine ((sortConversations_perm lc _).filter _).trans ?_
    split
    · rw [hne]
    · rw [List.filter_append, hne]
      simp [List.filter_cons]
  · rw [(sortConversations_perm lc _).length_eq]
    by_cases hmem : n.id ∈ prev.map (fun u => u.id)
    · rw [if_pos ((any_id_iff n.id prev).2 hmem), if_pos hmem, List.length_map]
    · rw [if_neg (fun h => hmem ((any_id_iff n.id prev).1 h)), if_neg hmem,
        List.length_append, List.length_map]
      rfl

/-- Witness for C14 with the code-unit `localeCompare`: the summary of `"b"`
arrives on a list that already holds `"b"`. -/
theorem handleConversationUpdate_upsert_witness :
    (∃ e, (handleConversationUpdate codeUnitCompare (some interleavedSummary.toRaw)
        exampleList).filter (fun u => u.id == interleavedSummary.id) = [e] ∧
      e.lastMessage = some interleavedSummary.lastMessage ∧
      e.unreadCount = interleavedSummary.unreadCount) ∧
    ((handleConversationUpdate codeUnitCompare (some interleavedSummary.toRaw)
        exampleList).filter (fun u => u.id != interleavedSummary.id)).Perm
      (exampleList.filter (fun u => u.id != interleavedSummary.id)) ∧
    (handleConversationUpdate codeUnitCompare (some interleavedSummary.toRaw)
        exampleList).length =
      (if interleavedSummary.id ∈ exampleList.map (fun u => u.id) then exampleList.length
        else exampleList.length + 1) ∧
    (handleConversationUpdate codeUnitCompare (some interleavedSummary.toRaw)
        exampleList).Pairwise (fun a b => compareConversations codeUnitCompare a b ≤ 0) :=
  handleConversationUpdate_upsert codeUnitCompare codeUnitCompare_total codeUnitCompare_trans
    exampleList (by decide) interleavedSummary

/-- C15, counterexample: the only conversation, with `"b"`, has two unread
messages and the badge shows one; after `handleMarkRead("b")` the badge shows 0,
not 1 - 2. -/
theorem handleMarkRead_clamps_badge :
    ¬ (∀ (lc : Str → Str → Int) (c : Str) (st : ChatListState) (u : ClientConversation),
        u ∈ st.users → u.id = c → (∀ u' ∈ st.users, u'.id = c → u' = u) →
        (handleMarkRead lc c st).unreadTotal = st.unreadTotal - (u.unreadCount : Int)) := by
  intro h
  have h1 := h codeUnitCompare [98] staleBadgeState (entry [98] [98] (some (inbound 1000)) 2)
    (by decide) rfl (by decide)
  revert h1
  decide

/-- C15, amended: `handleMarkRead(c)` leaves every entry with id `c` with
unread count 0, keeps the ids of the list, leaves the entries of other ids as
they were, and, when `u` is the only conversation with id `c` and the badge is
not negative, sets the badge to the larger of 0 and the badge minus the unread
count `u` had. -/
theorem handleMarkRead_effect (lc : Str → Str → Int) (c : Str) (st : ChatListState) :
    (∀ e ∈ (handleMarkRead lc c st).users, e.id = c → e.unreadCount = 0) ∧
    ((handleMarkRead lc c st).users.map fun u => u.id).Perm (st.users.map fun u => u.id) ∧
    ((handleMarkRead lc c st).users.filter (fun u => u.id != c)).Perm
      (st.users.filter (fun u => u.id != c)) ∧
    (∀ u ∈ st.users, u.id = c → (∀ u' ∈ st.users, u'.id = c → u' = u) →
      0 ≤ st.unreadTotal →
      (handleMarkRead lc c st).unreadTotal = max (st.unreadTotal - (u.unreadCount : Int)) 0) := by
  have hf : ∀ u : ClientConversation,
      (if u.id == c then
          ({ u with unreadCount := 0,
                    lastMessage := u.lastMessage.map fun m => { m with read := true } } :
            ClientConversation)
        else u).id = u.id := by
    intro u
    by_cases hu : u.id = c <;> simp [hu]
  refine ⟨?_, ?_, ?_, ?_⟩
  · intro e he hid
    simp only [handleMarkRead] at he
    rw [(sortConversations_perm lc _).mem_iff, List.mem_map] at he
    obtain ⟨u, _, rfl⟩ := he
    by_cases hu : u.id = c
    · simp [hu]
    · rw [hf u] at hid; exact absurd hid hu
  · simp only [handleMarkRead]
    refine ((sortConversations_perm lc _).map _).trans ?_
    rw [List.map_map]
    have : ((fun u : ClientConversation => u.id) ∘ fun u : ClientConversation =>
        if u.id == c then
          ({ u with unreadCount := 0,
                    lastMessage := u.lastMessage.map fun m => { m with read := true } } :
            ClientConversation)
        else u) = fun u => u.id := funext hf
    rw [this]
  · simp only [handleMarkRead]
    refine ((sortConversations_perm lc _).filter _).trans ?_
    rw [filter_ne_map_upsert c _ (fun u => by rw [hf u]) (fun u hu => by simp [hu]) st.users]
  · intro u hu hid huniq hnonneg
    simp only [handleMarkRead]
    rw [decrement_fold c u.unreadCount st.users 0
      (fun u' hu' hid' => by rw [huniq u' hu' hid'])]
    have hmem : c ∈ st.users.map (fun u => u.id) := List.mem_map.2 ⟨u, hu, hid⟩
    rw [if_pos hmem]
    by_cases h0 : u.unreadCount = 0
    · simp [h0, hnonneg]
    · simp [h0]

/-- Witness for the amended C15: `handleMarkRead("b")` on a list of three where
`"b"` has two unread and the badge shows five. -/
theorem handleMarkRead_effect_witness :
    (handleMarkRead codeUnitCompare [98] exampleState).unreadTotal = max (5 - 2) 0 :=
  (handleMarkRead_effect codeUnitCompare [98] exampleState).2.2.2
    (entry [98] [98] (some (inbound 1000)) 2) (by decide) rfl (by decide) (by decide)

/-- C16: in the chat of a viewer with another user as counterpart, both with
non-empty ids, an event of that conversation whose reader is the
counterpart leaves the list with the same messages in the same places, each
message sent by the viewer now read and every other message as it was; an event
of another conversation, and an event whose reader is the viewer, leave the
list as it was. -/
theorem handleMessagesRead_effect (currentUserId userId : Str) (prev : List Message) :
    (currentUserId ≠ [] → userId ≠ [] → userId ≠ currentUserId →
      List.Forall₂
        (fun m m' => (m.senderId = currentUserId → m' = { m with read := true }) ∧
          (m.senderId ≠ currentUserId → m' = m))
        prev (handleMessagesRead currentUserId userId (some userId) (some currentUserId) prev)) ∧
    (∀ readerId otherUserId : Option Str,
      ¬ ((readerId = some currentUserId ∧ otherUserId = some userId) ∨
         (readerId = some userId ∧ otherUserId = some currentUserId)) →
      handleMessagesRead currentUserId userId readerId otherUserId prev = prev) ∧
    (∀ otherUserId : Option Str,
      handleMessagesRead currentUserId userId (some currentUserId) otherUserId prev = prev) := by
  refine ⟨?_, ?_, ?_⟩
  · intro hcur husr hne
    have hres : handleMessagesRead currentUserId userId (some userId) (some currentUserId) prev
        = prev.map fun msg =>
            if msg.senderId == currentUserId then { msg with read := true } else msg := by
      simp [handleMessagesRead, hcur, husr, hne]
    rw [hres]
    clear hres
    induction prev with
    | nil => exact List.Forall₂.nil
    | cons m l ih =>
      refine List.Forall₂.cons ?_ ih
      by_cases hm : m.senderId = currentUserId
      · simp [hm]
      · simp [hm]
  · intro readerId otherUserId hnot
    unfold handleMessagesRead
    simp only
    split
    · rfl
    · rename_i hempty
      split
      · rfl
      · rename_i hconv
        exfalso
        apply hnot
        simp only [Bool.or_eq_true, List.isEmpty_iff, not_or] at hempty
        simp only [Bool.not_eq_true', Bool.not_eq_false, Bool.or_eq_true, Bool.and_eq_true,
          beq_iff_eq] at hconv
        cases readerId with
        | none => exact absurd rfl hempty.1
        | some r =>
          cases otherUserId with
          | none => exact absurd rfl hempty.2
          | some o =>
            simp only [Option.getD_some] at hconv
            rcases hconv with ⟨h1, h2⟩ | ⟨h1, h2⟩
            · exact Or.inl ⟨by rw [h1], by rw [h2]⟩
            · exact Or.inr ⟨by rw [h1], by rw [h2]⟩
  · intro otherUserId
    unfold handleMessagesRead
    simp only [Option.getD_some]
    split
    · rfl
    · split
      · rfl
      · simp

/-- Witness for C16: `"a"` is in a chat with `"b"`, and `"b"` has read. -/
theorem handleMessagesRead_effect_witness :
    List.Forall₂
      (fun m m' => (m.senderId = [97] → m' = { m with read := true }) ∧
        (m.senderId ≠ [97] → m' = m))
      [inbound 1000, outbound]
      (handleMessagesRead [97] [98] (some [98]) (some [97]) [inbound 1000, outbound]) :=
  (handleMessagesRead_effect [97] [98] [inbound 1000, outbound]).1 (by decide) (by decide)
    (by decide)

/-- C17: for a connected viewer and counterpart, the `markMessagesRead` that
follows `getMessages` answers 200 with `rowsUpdated` 0 and publishes nothing;
so opening a conversation (`fetchMessages`) publishes no `chat:messages-read`
event and makes no `onMarkRead` call. -/
theorem open_conversation_marks_nothing (s₁ s₂ : Schedule) (db : Store) (v o : Str)
    (messages : List Message) (h : ensureConnection db v o = true) :
    (markMessagesRead s₂ (getMessages s₁ db v o).db v o).status = 200 ∧
    (markMessagesRead s₂ (getMessages s₁ db v o).db v o).body = some 0 ∧
    (markMessagesRead s₂ (getMessages s₁ db v o).db v o).events = [] ∧
    (∀ e ∈ (fetchMessages s₁ s₂ db v o messages).events, e.payload.name ≠ .messagesRead) ∧
    (fetchMessages s₁ s₂ db v o messages).onMarkReadCalls = [] := by
  have hmark := markMessagesRead_after_getMessages s₁ s₂ db v o h
  refine ⟨by rw [hmark], by rw [hmark], by rw [hmark], ?_, ?_⟩
  · intro e he
    unfold fetchMessages at he
    split at he
    · simp at he
    · simp only at he
      split at he
      · simp only [markConversationRead, hmark, List.mem_append] at he
        have he' : e ∈ (getMessages s₁ db v o).events := by
          rcases he with he | he
          · exact he
          · simp at he
        exact getMessages_events_names s₁ db v o e he'
      · exact getMessages_events_names s₁ db v o e he
  · unfold fetchMessages
    split
    · rfl
    · simp only
      split
      · simp [markConversationRead, hmark]
      · rfl

/-- Witness for C17: `"a"` opens the conversation with `"b"` while one message
from `"b"` is unread. -/
theorem open_conversation_marks_nothing_witness :
    (markMessagesRead .s012 (getMessages .s012 oneUnreadStore alice bob).db alice bob).status
      = 200 ∧
    (markMessagesRead .s012 (getMessages .s012 oneUnreadStore alice bob).db alice bob).body
      = some 0 ∧
    (markMessagesRead .s012 (getMessages .s012 oneUnreadStore alice bob).db alice bob).events
      = [] ∧
    (∀ e ∈ (fetchMessages .s012 .s012 oneUnreadStore alice bob []).events,
      e.payload.name ≠ .messagesRead) ∧
    (fetchMessages .s012 .s012 oneUnreadStore alice bob []).onMarkReadCalls = [] :=
  open_conversation_marks_nothing .s012 .s012 oneUnreadStore alice bob [] (by decide)

end ThinkSync
